import Mathlib

/-!
Verification of the note-synchronization plugin (`obsidian-notes-sync`).

This file shallowly embeds the sync orchestration logic of the repository:

* `LuojiLabSyncService` (src/unnamed/part_001): `syncFromServer` with its
  per-note processing loop, `fetchAllNotes` cursor pagination,
  `fetchRemoteNotesWithPagination` query-parameter construction,
  `syncToServer`, `serializeToMarkdown` / `parseFrontMatter`;
* `FlomoSyncService` (src/unnamed/part_004): `syncFromServer`,
  `syncToServer` with the memo-id write-back, `formatNoteContent`,
  the simple line-based `parseFrontMatter`;
* `SyncManager` (src/src/SyncManager.ts): `fullSyncFromServer`,
  `clearErrors`, service dispatch;
* the data model of src/src/types.ts.

Effectful calls (HTTP fetches, vault writes, `Date.now()`, the observed
values of the `cancelRequested` flag) are parameterized by oracles, so every
definition is executable.  JavaScript strings are embedded as `List Char`.
-/

namespace NotesSync

/-- Strings of the embedded program, as lists of characters. -/
abbrev Str := List Char

/-- Coerce a Lean string literal into the embedded string type. -/
def lstr (s : String) : Str := s.data

/-- Tag of a remote note (src/src/types.ts, `RemoteNote.tags` items). -/
structure NoteTag where
  id : String
  name : String
  deriving Repr, DecidableEq

/-- A remote note as fetched from the LuojiLab API (src/src/types.ts 1-18). -/
structure RemoteNote where
  id : String
  note_id : String
  title : String
  content : String
  entry_type : String
  note_type : String
  source : String
  tags : List NoteTag
  created_at : String
  updated_at : String
  deriving Repr, DecidableEq

/-- Fallback note used only to spell `batch[batch.length - 1]` totally;
every use site has a proof or guard that the batch is nonempty. -/
def dummyNote : RemoteNote :=
  ⟨"", "", "", "", "", "", "", [], "", ""⟩

/-- One entry of `SyncStatus.errors` (src/src/types.ts 69-73). -/
structure SyncError where
  file : String
  error : String
  timestamp : Nat
  deriving Repr, DecidableEq

/-- `SyncStatus.progress` (src/src/types.ts 74-78). -/
structure Progress where
  total : Nat
  completed : Nat
  currentFile : String
  deriving Repr, DecidableEq

/-- The in-memory sync status object (src/src/types.ts 64-79).  Note that it
has no state field other than the boolean `inProgress`: there is no
representation of a `Cancelled` state. -/
structure SyncStatus where
  inProgress : Bool
  lastSync : Nat
  lastSyncId : String
  pendingChanges : Nat
  errors : List SyncError
  progress : Progress
  deriving Repr, DecidableEq

/-- The plugin settings fields that the sync services read
(src/src/types.ts 20-47, restricted to the fields the embedded code uses). -/
structure Settings where
  bearerToken : String
  syncFolder : String
  noteFetchLimit : Nat
  lastSyncId : String
  lastSyncTime : Nat
  flomoApiToken : String
  flomoSyncDirectory : String
  deriving Repr, DecidableEq

/-- Mutable state of one sync service instance
(fields of `LuojiLabSyncService` / `FlomoSyncService`, plus the plugin
settings they read and write). -/
structure ServiceState where
  settings : Settings
  isSyncing : Bool
  cancelRequested : Bool
  status : SyncStatus
  deriving Repr, DecidableEq

/-! ## The per-note processing loop of `LuojiLabSyncService.syncFromServer`
(src/unnamed/part_001 lines 134-185).

`writeErr i` is the outcome of the `createOrUpdateLocalNote` call for loop
index `i` (`none` = resolved, `some msg` = threw with message `msg`);
`cancel i` is the value of `this.cancelRequested` observed by the check at
the top of iteration `i`; `now` stands for `Date.now()`. -/

/-- Accumulated loop state: the local counters of lines 134-136, the
`processedNoteIds` set of line 59, the error list and progress fields of
`this.syncStatus`, plus two observation lists: `attempted` records the notes
actually passed to `createOrUpdateLocalNote`, `written` the ids whose local
write resolved. -/
structure LoopState where
  processedIds : List String
  successCount : Nat
  errorCount : Nat
  skipCount : Nat
  errors : List SyncError
  attempted : List RemoteNote
  written : List String
  completedProg : Nat
  currentFile : String
  deriving Repr, DecidableEq

/-- The `for` loop of lines 139-176.  `total` is `notes.length` (used in the
progress message), `i` the loop index. -/
def processNotesGo (writeErr : Nat → Option String) (cancel : Nat → Bool)
    (now : Nat) (total : Nat) : List RemoteNote → Nat → LoopState → LoopState
  | [], _, st => st
  | note :: rest, i, st =>
    -- line 140: if (this.cancelRequested) break
    if cancel i then st
    -- line 148: if (processedNoteIds.has(note.id)) { skipCount++; continue }
    else if note.id ∈ st.processedIds then
      processNotesGo writeErr cancel now total rest (i + 1)
        { st with skipCount := st.skipCount + 1 }
    else
      -- lines 155-158: mark processed, update progress
      let st1 := { st with
        processedIds := st.processedIds ++ [note.id]
        completedProg := i
        currentFile := "Processing note " ++ toString (i + 1) ++ "/" ++
          toString total ++ ": " ++ (if note.title = "" then "Untitled" else note.title)
        attempted := st.attempted ++ [note] }
      match writeErr i with
      | none =>
        -- line 161-162: createOrUpdateLocalNote resolved
        processNotesGo writeErr cancel now total rest (i + 1)
          { st1 with successCount := st1.successCount + 1
                     written := st1.written ++ [note.id] }
      | some msg =>
        -- lines 163-172: error recorded, sync continues
        processNotesGo writeErr cancel now total rest (i + 1)
          { st1 with errorCount := st1.errorCount + 1
                     errors := st1.errors ++
                       [⟨if note.title = "" then "Note ID: " ++ note.id else note.title,
                         "Failed to save note: " ++ msg, now⟩] }

/-- Initial loop state (counters zero, nothing processed). -/
def initLoopState : LoopState := ⟨[], 0, 0, 0, [], [], [], 0, ""⟩

/-- Run the processing loop over a fetched batch, starting from fresh
counters, with `total` displayed as the batch length. -/
def processNotes (writeErr : Nat → Option String) (cancel : Nat → Bool)
    (now : Nat) (notes : List RemoteNote) : LoopState :=
  processNotesGo writeErr cancel now notes.length notes 0 initLoopState

/-- The completion summary of line 183. -/
def pullSummary (st : LoopState) : String :=
  "Completed: " ++ toString st.successCount ++ " notes saved, " ++
    toString st.skipCount ++ " skipped, " ++ toString st.errorCount ++ " errors"

/-- Lines 139-185: the loop followed by the unconditional summary update of
lines 182-184 (`progress.completed = notes.length`, `currentFile = summary`),
which runs whether or not the loop was exited by the cancellation `break`. -/
def runPullLoop (writeErr : Nat → Option String) (cancel : Nat → Bool)
    (now : Nat) (notes : List RemoteNote) : LoopState :=
  let st := processNotes writeErr cancel now notes
  { st with completedProg := notes.length, currentFile := pullSummary st }

/-! ### Loop step lemmas -/

/-- State update of a successful `createOrUpdateLocalNote` iteration. -/
def stepOk (note : RemoteNote) (i total : Nat) (st : LoopState) : LoopState :=
  { st with
    processedIds := st.processedIds ++ [note.id]
    successCount := st.successCount + 1
    attempted := st.attempted ++ [note]
    written := st.written ++ [note.id]
    completedProg := i
    currentFile := "Processing note " ++ toString (i + 1) ++ "/" ++
      toString total ++ ": " ++ (if note.title = "" then "Untitled" else note.title) }

/-- State update of an iteration whose local write threw `msg`. -/
def stepErr (note : RemoteNote) (i total now : Nat) (msg : String) (st : LoopState) : LoopState :=
  { st with
    processedIds := st.processedIds ++ [note.id]
    errorCount := st.errorCount + 1
    errors := st.errors ++
      [⟨if note.title = "" then "Note ID: " ++ note.id else note.title,
        "Failed to save note: " ++ msg, now⟩]
    attempted := st.attempted ++ [note]
    completedProg := i
    currentFile := "Processing note " ++ toString (i + 1) ++ "/" ++
      toString total ++ ": " ++ (if note.title = "" then "Untitled" else note.title) }

/-- A remote note with the given id and title (other fields inert). -/
def mkNote (id title : String) : RemoteNote :=
  ⟨id, "", title, "some content", "", "", "", [], "", ""⟩

/-- The five-note batch of the C1 example. -/
def exNotes5 : List RemoteNote :=
  [mkNote "id1" "Note 1", mkNote "id2" "Note 2", mkNote "id3" "Note 3",
   mkNote "id4" "Note 4", mkNote "id5" "Note 5"]

/-- Oracle of the C1 example: exactly the third note's local write throws. -/
def exWriteErr5 : Nat → Option String := fun i => if i = 2 then some "boom" else none

/-- What a pass cancelled at loop index `k` leaves behind: the uncancelled
processing of the first `k` notes, with the final summary lines 182-184
applied on top (this is the amended form of claim C5). -/
def cancelledPullResult (writeErr : Nat → Option String) (now k : Nat)
    (notes : List RemoteNote) : LoopState :=
  let pre := processNotesGo writeErr (fun _ => false) now notes.length (notes.take k) 0
    initLoopState
  { pre with completedProg := notes.length, currentFile := pullSummary pre }

/-- A query-parameter list, in append order. -/
abbrev Req := List (String × String)

/-- One page of the `{ c: { list, has_more } }` response shape. -/
structure Page where
  list : List RemoteNote
  has_more : Bool
  deriving Repr, DecidableEq

/-- `pageSize` of `fetchAllNotes` (line 465). -/
def pageSize : Nat := 20

/-- `maxPages` of `fetchAllNotes` (line 467). -/
def maxPages : Nat := 500

/-- JavaScript `String.prototype.trim()`: strip leading and trailing
whitespace.  (Lean's own `String.trim` is defined by well-founded recursion
on byte positions and does not evaluate inside `decide`; this equivalent
list-level definition does.) -/
def trimStr (s : String) : String :=
  ⟨((s.data.dropWhile Char.isWhitespace).reverse.dropWhile Char.isWhitespace).reverse⟩

/-- Models `new Date(ms).toISOString()` (line 418).  The exact rendering is
irrelevant to every claim (no claim inspects the `updated_after` value);
only that some string derived from the timestamp is sent. -/
def isoDate (ms : Nat) : String := "ISO:" ++ toString ms

/-- The `updated_after` parameter of lines 416-421 (`sinceTimestamp &&
sinceTimestamp > 0`). -/
def updatedAfterParam (sinceTimestamp : Option Nat) : Req :=
  match sinceTimestamp with
  | some t => if 0 < t then [("updated_after", isoDate t)] else []
  | none => []

/-- Parameter construction of `fetchRemoteNotesWithPagination`, lines 407-424:
`limit` appended when present and positive, then `since_id` when present and
nonblank (else `updated_after` when the timestamp is positive), then always
`sort=create_desc`. -/
def buildParams (limit : Option Nat) (sinceTimestamp : Option Nat)
    (sinceId : Option String) : Req :=
  (match limit with
   | some l => if 0 < l then [("limit", toString l)] else []
   | none => [])
  ++ (match sinceId with
      | some sid =>
        if trimStr sid ≠ "" then [("since_id", sid)] else updatedAfterParam sinceTimestamp
      | none => updatedAfterParam sinceTimestamp)
  ++ [("sort", "create_desc")]

/-- How `syncFromServer` fetches: either the multi-page `fetchAllNotes` walk,
or a single `fetchRemoteNotesWithPagination` request. -/
inductive PullPlan where
  | fullFetch : PullPlan
  | single : Req → PullPlan
  deriving Repr, DecidableEq

/-- The fetch-mode dispatch of `syncFromServer`, lines 70-104:
full sync → `fetchAllNotes`; stored cursor id → id-based incremental fetch
with `limit = (isAutoSync || useIncrementalSync) ? 0 : noteFetchLimit`;
stored time → time-based fetch with `limit = isAutoSync ? 0 : noteFetchLimit`;
positive `noteFetchLimit` → bounded initial fetch; else `fetchAllNotes`. -/
def pullDispatch (s : Settings) (isAutoSync isFullSync : Bool) : PullPlan :=
  if isFullSync then PullPlan.fullFetch
  else if trimStr s.lastSyncId ≠ "" then
    PullPlan.single (buildParams
      (some (if isAutoSync = true ∨ 0 < s.lastSyncTime then 0 else s.noteFetchLimit))
      none (some s.lastSyncId))
  else if 0 < s.lastSyncTime then
    PullPlan.single (buildParams
      (some (if isAutoSync = true then 0 else s.noteFetchLimit))
      (some s.lastSyncTime) none)
  else if 0 < s.noteFetchLimit then
    PullPlan.single (buildParams (some s.noteFetchLimit) none none)
  else PullPlan.fullFetch

/-- First-page request of `fetchAllNotes` (line 475):
`limit=pageSize&sort=create_desc`, no `since_id`, and independent of the
configured `noteFetchLimit`. -/
def firstReq : Req := [("limit", toString pageSize), ("sort", "create_desc")]

/-- Subsequent-page request (line 526):
`limit=pageSize&since_id=lastId&sort=create_desc`. -/
def nextReq (lastId : String) : Req :=
  [("limit", toString pageSize), ("since_id", lastId), ("sort", "create_desc")]

/-- `batch[batch.length - 1].id`; the dummy default is never used because
every call site guards `batch = []`. -/
def lastIdOf (batch : List RemoteNote) : String := (batch.getLastD dummyNote).id

/-- The `while (hasMore && page <= maxPages)` loop of `fetchAllNotes`
(lines 512-568), with `fuel = maxPages - page + 1` enforcing the page
ceiling.  Returns the notes accumulated by the loop and the page requests it
issued.  `pageCancel p` is the `cancelRequested` value observed at page `p`. -/
def fetchPagesGo (server : Req → Page) (pageCancel : Nat → Bool) :
    Nat → Nat → Bool → String → List RemoteNote × List Req
  | 0, _, _, _ => ([], [])
  | fuel + 1, page, hasMore, lastId =>
    if hasMore = false then ([], [])
    -- line 513: if (this.cancelRequested) break
    else if pageCancel page then ([], [])
    -- line 520: if (!lastId) break
    else if lastId = "" then ([], [])
    else
      let req := nextReq lastId
      let data := server req
      let batch := data.list
      -- line 545: if (batch.length === 0) break
      if batch = [] then ([], [req])
      else
        let r := fetchPagesGo server pageCancel fuel (page + 1) data.has_more (lastIdOf batch)
        (batch ++ r.1, req :: r.2)

/-- `fetchAllNotes` (lines 462-580): fetch the first page with no cursor and
no configured limit, then walk the `since_id` cursor.  Returns all fetched
notes and the ordered list of issued page requests. -/
def fetchAllNotes (server : Req → Page) (pageCancel : Nat → Bool) :
    List RemoteNote × List Req :=
  let firstPage := server firstReq
  let firstBatch := firstPage.list
  if firstBatch = [] then ([], [firstReq])
  else
    let r := fetchPagesGo server pageCancel (maxPages - 1) 2 firstPage.has_more
      (lastIdOf firstBatch)
    (firstBatch ++ r.1, firstReq :: r.2)

/-- The requests after the first advance the `since_id` cursor to the id of
the last item of the previous page's response. -/
def chainedFrom (server : Req → Page) : String → List Req → Prop
  | _, [] => True
  | lastId, r :: rest =>
    r = nextReq lastId ∧ chainedFrom server (lastIdOf (server r).list) rest

/-- The last issued request's response reported `has_more = false` or an
empty batch (the two data-driven stopping conditions). -/
def stopOk (server : Req → Page) (reqs : List Req) : Prop :=
  ∃ r, reqs.getLast? = some r
    ∧ ((server r).has_more = false ∨ (server r).list = [])

/-! ### Pagination lemmas -/

/-- One-page server used to witness C2's conditional parts. -/
def exServerC2 : Req → Page := fun _ => ⟨[mkNote "w1" "W"], false⟩

/-- Concrete settings of the C3 example: stored cursor `"abc123"`, no stored
sync time, the default `noteFetchLimit = 50`. -/
def exSettingsC3 : Settings := ⟨"tok", "notes", 50, "abc123", 0, "", ""⟩

/-- Settings witnessing the amended C3: cursor stored together with a
positive `lastSyncTime` (the usual incremental state). -/
def exSettingsC3w : Settings := ⟨"tok", "notes", 50, "abc123", 5, "", ""⟩

/-- A front-matter value.  `str`/`arr`/`nat` are the value shapes the
program itself writes; `bool`, `null`, `int` and `float` are the extra
shapes js-yaml's implicit plain-scalar typing produces when loading
(`float` keeps the source text of the scalar: no statement below inspects
a float's numeric value). -/
inductive FMVal where
  | str : Str → FMVal
  | arr : List Str → FMVal
  | nat : Nat → FMVal
  | bool : Bool → FMVal
  | null : FMVal
  | int : Int → FMVal
  | float : Str → FMVal
  deriving Repr, DecidableEq

/-- A front-matter object, as an ordered association list. -/
abbrev FM := List (Str × FMVal)

/-- One `for (const key in frontMatter)` iteration of `serializeToMarkdown`
(lines 792-802): arrays as `key:` followed by `  - item` lines, scalars as
`key: value` (template interpolation renders numbers in decimal). -/
def renderEntry : Str × FMVal → Str
  | (k, FMVal.str v) => k ++ lstr ": " ++ v ++ ['\n']
  | (k, FMVal.nat n) => k ++ lstr ": " ++ lstr (toString n) ++ ['\n']
  | (k, FMVal.bool b) => k ++ lstr ": " ++ lstr (if b then "true" else "false") ++ ['\n']
  | (k, FMVal.null) => k ++ lstr ": " ++ lstr "null" ++ ['\n']
  | (k, FMVal.int i) => k ++ lstr ": " ++ lstr (toString i) ++ ['\n']
  | (k, FMVal.float s) => k ++ lstr ": " ++ s ++ ['\n']
  | (k, FMVal.arr items) =>
    k ++ [':', '\n'] ++ (items.map (fun it => lstr "  - " ++ it ++ ['\n'])).flatten

/-- `LuojiLabSyncService.serializeToMarkdown` (lines 790-805):
`---\n` + one block per key + `---\n\n` + content. -/
def serializeToMarkdown (fm : FM) (content : Str) : Str :=
  lstr "---\n" ++ (fm.map renderEntry).flatten ++ lstr "---\n\n" ++ content

/-- Does `s` start with `p`? -/
def strStartsWith : Str → Str → Bool
  | [], _ => true
  | _ :: _, [] => false
  | p :: ps, c :: cs => p == c && strStartsWith ps cs

/-- Locate the first occurrence of `\n---` (the non-greedy close of the
regex `^---\n([\s\S]*?)\n---`), returning the text before it and the text
after the matched `\n---`. -/
def splitAtClose : Str → Option (Str × Str)
  | [] => none
  | c :: rest =>
    if c = '\n' ∧ strStartsWith (lstr "---") rest then some ([], rest.drop 3)
    else
      match splitAtClose rest with
      | some p => some (c :: p.1, p.2)
      | none => none

/-- Split on a separator character (JavaScript `String.prototype.split`). -/
def splitOnChar (sep : Char) : Str → List Str
  | [] => [[]]
  | c :: rest =>
    if c = sep then [] :: splitOnChar sep rest
    else
      match splitOnChar sep rest with
      | [] => [[c]]
      | p :: ps => (c :: p) :: ps

/-- Strip leading and trailing spaces (the only whitespace the safe
fragment contains). -/
def trimSp (s : Str) : Str :=
  ((s.dropWhile (fun c => c = ' ')).reverse.dropWhile (fun c => c = ' ')).reverse

/-- JavaScript `String.prototype.trim()` on embedded strings. -/
def trimWs (s : Str) : Str :=
  ((s.dropWhile Char.isWhitespace).reverse.dropWhile Char.isWhitespace).reverse

/-- Does this line belong to a block-sequence (`  - item`)? -/
def isBullet (l : Str) : Bool := strStartsWith (lstr "  - ") l

/-- The item of a `  - item` line. -/
def bulletVal (l : Str) : Str := trimSp (l.drop 4)

/-- Split a line at its first `:` (key before, raw value after). -/
def splitAtColon : Str → Option (Str × Str)
  | [] => none
  | c :: rest =>
    if c = ':' then some ([], rest)
    else
      match splitAtColon rest with
      | some p => some (c :: p.1, p.2)
      | none => none

/-- Decimal value of an all-digit string. -/
def digitsToNat (s : Str) : Nat := s.foldl (fun acc c => 10 * acc + (c.toNat - 48)) 0

/-- js-yaml `resolveYamlNull` (type/null): `~` and the three casings of
`null`; an empty plain scalar also loads as null. -/
def yamlNull (v : Str) : Bool :=
  v.isEmpty || v == ['~'] || v == lstr "null" || v == lstr "Null" || v == lstr "NULL"

/-- js-yaml `resolveYamlBoolean` (type/bool): exactly the six casings of
`true`/`false` (js-yaml does not resolve YAML 1.1's yes/no/on/off). -/
def yamlBool (v : Str) : Bool :=
  v == lstr "true" || v == lstr "True" || v == lstr "TRUE"
  || v == lstr "false" || v == lstr "False" || v == lstr "FALSE"

/-- The boolean a true/false scalar denotes. -/
def yamlBoolValue (v : Str) : Bool := v.headD 'f' == 't' || v.headD 'f' == 'T'

def isBinDigit (c : Char) : Bool := c == '0' || c == '1'

def isOctDigit (c : Char) : Bool := '0' ≤ c && c ≤ '7'

def isHexDigit (c : Char) : Bool :=
  c.isDigit || ('a' ≤ c && c ≤ 'f') || ('A' ≤ c && c ≤ 'F')

/-- A digit run in which `_` is skipped: at least one digit, every character
a digit or `_`, and (js-yaml's final check) not ending in `_`. -/
def digitsRun (p : Char → Bool) (s : Str) : Bool :=
  s.any p && s.all (fun c => c == '_' || p c) && !(s.getLastD '_' == '_')

/-- The base-10 arm of `resolveYamlInteger`: no leading `_`, then a digit
run. -/
def decRunFrom (s : Str) : Bool :=
  !(s.headD '_' == '_') && digitsRun Char.isDigit s

/-- js-yaml `resolveYamlInteger` after the optional sign: `0` alone, a
`0b`/`0x`/`0o` run, or a base-10 digit run (leading zeros allowed). -/
def yamlIntCore : Str → Bool
  | [] => false
  | ['0'] => true
  | '0' :: 'b' :: ds => digitsRun isBinDigit ds
  | '0' :: 'x' :: ds => digitsRun isHexDigit ds
  | '0' :: 'o' :: ds => digitsRun isOctDigit ds
  | '0' :: rest => decRunFrom rest
  | s => decRunFrom s

/-- js-yaml `resolveYamlInteger` (type/int). -/
def yamlInt : Str → Bool
  | [] => false
  | c :: rest => if c == '-' || c == '+' then yamlIntCore rest else yamlIntCore (c :: rest)

/-- Numeric value of one digit in bases up to 16. -/
def digitVal (c : Char) : Nat :=
  if c.isDigit then c.toNat - 48
  else if 'a' ≤ c && c ≤ 'f' then c.toNat - 87
  else if 'A' ≤ c && c ≤ 'F' then c.toNat - 55
  else 0

/-- Read an underscore-free digit string in base `b`. -/
def natFromBase (b : Nat) (ds : Str) : Nat := ds.foldl (fun acc c => b * acc + digitVal c) 0

/-- js-yaml `constructYamlInteger` after the sign: drop `_` separators and
read the base prefix. -/
def yamlIntCoreValue : Str → Nat
  | '0' :: 'b' :: ds => natFromBase 2 (ds.filter (fun c => !(c == '_')))
  | '0' :: 'x' :: ds => natFromBase 16 (ds.filter (fun c => !(c == '_')))
  | '0' :: 'o' :: ds => natFromBase 8 (ds.filter (fun c => !(c == '_')))
  | s => natFromBase 10 (s.filter (fun c => !(c == '_')))

/-- js-yaml `constructYamlInteger` (the value of a scalar accepted by
`yamlInt`). -/
def yamlIntValue : Str → Int
  | '-' :: rest => -(yamlIntCoreValue rest : Int)
  | '+' :: rest => (yamlIntCoreValue rest : Int)
  | s => (yamlIntCoreValue s : Int)

/-- Strip one leading `-` or `+` (the `[-+]?` of js-yaml's float regex). -/
def stripSign : Str → Str
  | c :: rest => if c == '-' || c == '+' then rest else c :: rest
  | [] => []

/-- A character of the `[0-9_]` class. -/
def digitU (c : Char) : Bool := c.isDigit || c == '_'

/-- The exponent `[eE][-+]?[0-9]+`, matched to the end of the scalar. -/
def expPart : Str → Bool
  | c :: rest =>
    (c == 'e' || c == 'E')
      && (let m := stripSign rest
          !m.isEmpty && m.all Char.isDigit)
  | [] => false

/-- The tail `(\.[0-9_]*)?([eE][-+]?[0-9]+)?` of js-yaml's float regex,
matched to the end of the scalar. -/
def floatTail (s : Str) : Bool :=
  s.isEmpty
    || (match s with
        | '.' :: r => (r.dropWhile digitU).isEmpty || expPart (r.dropWhile digitU)
        | _ => expPart s)

/-- Float-regex branch `[-+]?[0-9][0-9_]*(\.[0-9_]*)?([eE][-+]?[0-9]+)?`. -/
def floatBranch1 (v : Str) : Bool :=
  match stripSign v with
  | c :: rest => c.isDigit && floatTail ((c :: rest).dropWhile digitU)
  | [] => false

/-- Float-regex branch `\.[0-9_]+([eE][-+]?[0-9]+)?` (no sign). -/
def floatBranch2 : Str → Bool
  | '.' :: r =>
    !(r.takeWhile digitU).isEmpty
      && ((r.dropWhile digitU).isEmpty || expPart (r.dropWhile digitU))
  | _ => false

/-- Float-regex branches `[-+]?\.(inf|Inf|INF)` and `\.(nan|NaN|NAN)`. -/
def floatWord (v : Str) : Bool :=
  stripSign v == lstr ".inf" || stripSign v == lstr ".Inf" || stripSign v == lstr ".INF"
  || v == lstr ".nan" || v == lstr ".NaN" || v == lstr ".NAN"

/-- js-yaml `resolveYamlFloat` (type/float): the `YAML_FLOAT_PATTERN` regex
plus the final not-ending-in-`_` check. -/
def yamlFloat (v : Str) : Bool :=
  (floatBranch1 v || floatBranch2 v || floatWord v) && !(v.getLastD '_' == '_')

/-- A plain scalar that js-yaml's implicit schema types resolve to a
non-string value (null, bool, int, float — tried in schema order).  The two
remaining implicit resolvers of the default schema, timestamps and the `<<`
merge key, accept only scalars containing `-` or `<`; every value alphabet
used in the statements below excludes those characters, and they are not
modeled. -/
def yamlNonString (v : Str) : Bool := yamlNull v || yamlBool v || yamlInt v || yamlFloat v

/-- A plain block-mapping value as js-yaml resolves it: null, boolean,
integer or float in schema order; anything else is the string itself.  A
float keeps its source text (JS holds the denoted double; no statement
below inspects it). -/
def scalarVal (v : Str) : FMVal :=
  if yamlNull v then FMVal.null
  else if yamlBool v then FMVal.bool (yamlBoolValue v)
  else if yamlInt v then FMVal.int (yamlIntValue v)
  else if yamlFloat v then FMVal.float v
  else FMVal.str v

/-- Append a block-sequence item to the most recently opened array key. -/
def appendToLastArr : FM → Str → FM
  | [], _ => []
  | [(k, FMVal.arr a)], it => [(k, FMVal.arr (a ++ [it]))]
  | [e], _ => [e]
  | e :: rest, it => e :: appendToLastArr rest it

/-- One line of the flat YAML fragment.  A `key:` / `key: value` line
stores a new mapping pair; js-yaml's `storeMappingPair` throws `duplicated
mapping key` when the key is already present, which the model signals as
`none`.  An indented `  - item` line appends to the most recently opened
block sequence.  Key scalars are stored as written: js-yaml would coerce a
yaml-typed key through `String(...)` (`1_0:` becomes the property `10`),
a corner every statement below excludes via `safeKey`. -/
def parseLineStep (fm : FM) (l : Str) : Option FM :=
  if isBullet l then some (appendToLastArr fm (bulletVal l))
  else
    match splitAtColon l with
    | some p =>
      if p.1 ∈ fm.map Prod.fst then none
      else if trimSp p.2 = [] then some (fm ++ [(p.1, FMVal.arr [])])
      else some (fm ++ [(p.1, scalarVal (trimSp p.2))])
    | none => some fm

/-- Thread a thrown `duplicated mapping key` through the line fold. -/
def parseLineStepO (acc : Option FM) (l : Str) : Option FM :=
  match acc with
  | some fm => parseLineStep fm l
  | none => none

/-- A mapping pair as it stands at the end of the document: a `key:` line
whose block sequence never received an item is an empty value, which
js-yaml loads as null, not as an empty array. -/
def closeEntry (e : Str × FMVal) : Str × FMVal :=
  if e.2 = FMVal.arr [] then (e.1, FMVal.null) else e

/-- Models js-yaml's `yaml.load` (line 776) restricted to the flat block
mappings `serializeToMarkdown` emits: `key: value` lines whose plain-scalar
values go through the implicit type resolution of `scalarVal`, `key:`
followed by `  - item` block-sequence lines, and the `duplicated mapping
key` exception (`none`).  Outside this fragment js-yaml has behaviors
(quoting, nesting, anchors) that no claim touches; sequence items are kept
as text, so items that js-yaml's typing would resolve to non-strings are
excluded from every statement below via `safeItem`. -/
def yamlLoadFlat (lines : List Str) : Option FM :=
  (lines.foldl parseLineStepO (some [])).map (List.map closeEntry)

/-- `LuojiLabSyncService.parseFrontMatter` (lines 771-782): match the
leading `---\n ... \n---` block and load it as YAML; `none` on no match or
when `yaml.load` throws (the catch returns null). -/
def parseFrontMatter (content : Str) : Option FM :=
  match content with
  | '-' :: '-' :: '-' :: '\n' :: rest =>
    (splitAtClose rest).bind (fun p => yamlLoadFlat (splitOnChar '\n' p.1))
  | _ => none

/-- `LuojiLabSyncService.extractNoteContent` (lines 784-788): body after the
front-matter block, trimmed; the whole content when there is no match. -/
def extractNoteContent (content : Str) : Str :=
  match content with
  | '-' :: '-' :: '-' :: '\n' :: rest =>
    match splitAtClose rest with
    | some p =>
      match p.2 with
      | '\n' :: body => trimWs body
      | _ => content
    | none => content
  | _ => content

/-- One line of `FlomoSyncService.parseFrontMatter` (lines 743-759):
skip blank lines and lines without `:`; `[a, b]`-shaped values become
arrays of trimmed strings, others plain trimmed strings. -/
def flomoParseLine (fm : FM) (l : Str) : FM :=
  if trimWs l = [] then fm
  else
    match splitAtColon l with
    | none => fm
    | some p =>
      let key := trimWs p.1
      let value := trimWs p.2
      if value.headD ' ' = '[' ∧ value.getLastD ' ' = ']' then
        fm ++ [(key, FMVal.arr ((splitOnChar ',' ((value.drop 1).dropLast)).map trimWs))]
      else fm ++ [(key, FMVal.str value)]

/-- `FlomoSyncService.parseFrontMatter` (lines 734-766). -/
def flomoParseFrontMatter (content : Str) : Option FM :=
  match content with
  | '-' :: '-' :: '-' :: '\n' :: rest =>
    (splitAtClose rest).map (fun p => (splitOnChar '\n' p.1).foldl flomoParseLine [])
  | _ => none

/-- `FlomoSyncService.extractContentWithoutFrontmatter` (lines 726-729). -/
def extractContentWithoutFrontmatter (content : Str) : Str :=
  match content with
  | '-' :: '-' :: '-' :: '\n' :: rest =>
    match splitAtClose rest with
    | some p =>
      match p.2 with
      | '\n' :: body => trimWs body
      | _ => trimWs content
    | none => trimWs content
  | _ => trimWs content

/-- `JSON.stringify` escaping for one character (quote and backslash; the
modelled inputs contain no control characters). -/
def jsonEscapeChar (c : Char) : Str := if c = '"' ∨ c = '\\' then ['\\', c] else [c]

/-- `JSON.stringify` of a string: quoted and escaped. -/
def jsonStringifyStr (s : Str) : Str := '"' :: (s.map jsonEscapeChar).flatten ++ ['"']

/-- One key of `FlomoSyncService.formatNoteContent` (lines 790-805): arrays
as raw `  - item` lines, scalars through `JSON.stringify` (so strings come
out quoted); the nested-object branch is unreachable for flat values. -/
def flomoRenderEntry : Str × FMVal → Str
  | (k, FMVal.arr items) =>
    k ++ [':', '\n'] ++ (items.map (fun it => lstr "  - " ++ it ++ ['\n'])).flatten
  | (k, FMVal.str v) => k ++ lstr ": " ++ jsonStringifyStr v ++ ['\n']
  | (k, FMVal.nat n) => k ++ lstr ": " ++ lstr (toString n) ++ ['\n']
  | (k, FMVal.bool b) => k ++ lstr ": " ++ lstr (if b then "true" else "false") ++ ['\n']
  | (k, FMVal.null) => k ++ lstr ": " ++ lstr "null" ++ ['\n']
  | (k, FMVal.int i) => k ++ lstr ": " ++ lstr (toString i) ++ ['\n']
  | (k, FMVal.float s) => k ++ lstr ": " ++ s ++ ['\n']

/-- `FlomoSyncService.formatNoteContent` (lines 788-808). -/
def flomoFormatNoteContent (fm : FM) (content : Str) : Str :=
  lstr "---\n" ++ (fm.map flomoRenderEntry).flatten ++ lstr "---\n\n" ++ content

/-! ## `LuojiLabSyncService.syncFromServer` as a whole
(src/unnamed/part_001 lines 34-202), with `SyncManager.fullSyncFromServer`
(src/src/SyncManager.ts lines 56-94) on top. -/

/-- Oracles for one pull pass: the HTTP server, the outcome of
`ensureSyncFolderExists` (`some msg` = threw), the per-note write outcomes,
the observed `cancelRequested` values (per note, per page, and at the
post-fetch check of line 107), and `Date.now()`. -/
structure PullEnv where
  server : Req → Page
  pageCancel : Nat → Bool
  folderFail : Option String
  writeErr : Nat → Option String
  cancel : Nat → Bool
  cancelAfterFetch : Bool
  now : Nat

/-- Execute the selected fetch mode (lines 73-104), returning the notes. -/
def runFetch (env : PullEnv) : PullPlan → List RemoteNote
  | PullPlan.fullFetch => (fetchAllNotes env.server env.pageCancel).1
  | PullPlan.single ps => (env.server ps).list

/-- The `try` block of `syncFromServer` (lines 61-189).  A thrown error
carries the message and the service state at the throw site (the mutations
done before the throw persist, since `this.syncStatus` is shared). -/
def luojiSyncFromServerBody (env : PullEnv) (isAutoSync isFullSync : Bool)
    (st0 : ServiceState) : Except (String × ServiceState) ServiceState :=
  -- line 63: ensureSyncFolderExists, rethrown at line 385 as
  -- "Failed to create sync folder: ..."
  match env.folderFail with
  | some m => Except.error ("Failed to create sync folder: " ++ m, st0)
  | none =>
    -- line 66
    let st1 := { st0 with status := { st0.status with progress :=
      { st0.status.progress with currentFile := "Fetching notes from server..." } } }
    -- lines 69-104: fetch according to the sync mode
    let notes := runFetch env (pullDispatch st1.settings isAutoSync isFullSync)
    -- lines 107-110: early return when cancelled during fetching
    if env.cancelAfterFetch then Except.ok st1
    else
      -- line 112
      let st2 := { st1 with status := { st1.status with progress :=
        { st1.status.progress with total := notes.length } } }
      -- lines 115-116: empty batch, Notice only
      if notes.length = 0 then Except.ok st2
      else
        -- lines 120-125: persist the newest note's id as the cursor as early
        -- as possible (guarded by the truthiness of notes[0].id)
        let st3 :=
          if (notes.headD dummyNote).id ≠ "" then
            { st2 with settings :=
              { st2.settings with lastSyncId := (notes.headD dummyNote).id } }
          else st2
        -- lines 129-132: total again, lastSyncTime := Date.now()
        let st4 := { st3 with
          settings := { st3.settings with lastSyncTime := env.now }
          status := { st3.status with progress :=
            { st3.status.progress with total := notes.length } } }
        -- lines 139-185: the processing loop and its completion summary
        let res := runPullLoop env.writeErr env.cancel env.now notes
        Except.ok { st4 with status := { st4.status with
          errors := st4.status.errors ++ res.errors
          progress := ⟨notes.length, res.completedProg, res.currentFile⟩ } }

/-- `LuojiLabSyncService.syncFromServer` (lines 34-202): reentrancy guard,
token guard, try/catch/finally.  The promise always resolves; the value is
the service state after the `finally`. -/
def luojiSyncFromServer (env : PullEnv) (isAutoSync isFullSync : Bool)
    (st0 : ServiceState) : ServiceState :=
  -- lines 35-38: a second invocation while one is active returns at once
  if st0.isSyncing then st0
  -- lines 40-43: missing bearer token returns at once
  else if st0.settings.bearerToken = "" then st0
  else
    -- lines 45-52
    let st1 := { st0 with
      isSyncing := true
      cancelRequested := false
      status :=
        { st0.status with inProgress := true, progress := ⟨0, 0, "Preparing to sync..."⟩ } }
    -- lines 190-197: catch records the error with an empty file label
    let st2 :=
      match luojiSyncFromServerBody env isAutoSync isFullSync st1 with
      | Except.ok s => s
      | Except.error p =>
        { p.2 with status := { p.2.status with
          errors := p.2.status.errors ++ [(⟨"", p.1, env.now⟩ : SyncError)] } }
    -- lines 198-201: finally
    { st2 with isSyncing := false, status := { st2.status with inProgress := false } }

/-- `SyncManager.fullSyncFromServer` (src/src/SyncManager.ts lines 56-94).
`luojiSyncFromServer` is total — its try/catch/finally swallows every
error — so the `catch` of lines 77-86, which would restore
`originalLastSyncId` / `originalLastSyncTime`, never runs; only the
`finally` of lines 87-93 executes. -/
def fullSyncFromServer (env : PullEnv) (st0 : ServiceState) : ServiceState :=
  -- lines 58-60
  let originalFetchLimit := st0.settings.noteFetchLimit
  -- lines 66-70: clear cursor state and fetch limit to force a full sync
  let stA := { st0 with settings := { st0.settings with
    lastSyncId := "", lastSyncTime := 0, noteFetchLimit := 0 } }
  -- line 73: the promise resolves, so control continues at line 76
  let stB := luojiSyncFromServer env false true stA
  -- lines 87-93: restore only the fetch limit, and only when both cursor
  -- fields are still cleared
  if stB.settings.lastSyncId = "" ∧ stB.settings.lastSyncTime = 0 then
    { stB with settings := { stB.settings with noteFetchLimit := originalFetchLimit } }
  else stB

/-- `getSyncStatus` (part_001 lines 280-282): returns `{ ...this.syncStatus }`,
a shallow copy of the status object. -/
def getSyncStatus (st : ServiceState) : SyncStatus := st.status

/-- `SyncManager.clearErrors` (SyncManager.ts lines 112-118): it reads the
shallow copy returned by `getSyncStatus` and assigns `status.errors = []`.
That assignment rebinds the `errors` property of the copy — it does not
mutate the array the service still holds — so the service state is returned
unchanged; the second component is the local `status` variable the method
built and discarded. -/
def clearErrors (st : ServiceState) : ServiceState × SyncStatus :=
  let status := getSyncStatus st
  let status2 := { status with errors := ([] : List SyncError) }
  (st, status2)

/-! ## `LuojiLabSyncService.syncToServer` (part_001 lines 204-271) -/

/-- A markdown file of the vault. -/
structure LocalFile where
  path : String
  basename : String
  content : Str
  deriving Repr, DecidableEq

/-- JS truthiness of the double a float scalar denotes: zero and NaN are
falsy; a nonzero mantissa digit, or an infinity, is truthy (exponent digits
cannot make a zero mantissa nonzero). -/
def floatTruthy (s : Str) : Bool :=
  (s.takeWhile (fun c => !(c == 'e' || c == 'E'))).any
    (fun c => ('1' ≤ c && c ≤ '9') || c == 'i' || c == 'I')

/-- Truthiness of `frontMatter?.remote_id` (line 248): present and not the
empty string / zero / false / null / NaN. -/
def hasRemoteId (fm? : Option FM) : Bool :=
  match fm? with
  | none => false
  | some fm =>
    match List.lookup (lstr "remote_id") fm with
    | some (FMVal.str v) => !v.isEmpty
    | some (FMVal.nat n) => n != 0
    | some (FMVal.arr _) => true
    | some (FMVal.bool b) => b
    | some FMVal.null => false
    | some (FMVal.int i) => i != 0
    | some (FMVal.float s) => floatTruthy s
    | none => false

/-- `frontMatter?.key || default` for string-valued keys (non-string values
fall back to the default; no claim exercises that corner). -/
def fmStrOr (fm? : Option FM) (k : Str) (dflt : Str) : Str :=
  match fm? with
  | none => dflt
  | some fm =>
    match List.lookup k fm with
    | some (FMVal.str v) => if v.isEmpty then dflt else v
    | _ => dflt

/-- `frontMatter?.tags || []`. -/
def fmTags (fm? : Option FM) : List Str :=
  match fm? with
  | none => []
  | some fm =>
    match List.lookup (lstr "tags") fm with
    | some (FMVal.arr items) => items
    | _ => []

/-- The JSON body of `createNoteOnServer`'s `POST /notes` (lines 811-819).
(The `json_content` field is the constant `""` and is omitted.) -/
structure LuojiPayload where
  title : Str
  content : Str
  entry_type : Str
  note_type : Str
  source : Str
  tags : List Str
  deriving Repr, DecidableEq

/-- Build the create payload from a file's front matter and body. -/
def luojiCreatePayload (fm? : Option FM) (content : Str) : LuojiPayload :=
  ⟨fmStrOr fm? (lstr "title") [], content,
   fmStrOr fm? (lstr "entry_type") (lstr "manual"),
   fmStrOr fm? (lstr "note_type") (lstr "plain_text"),
   fmStrOr fm? (lstr "source") (lstr "web"), fmTags fm?⟩

/-- Oracles for one Luoji push pass: the files of the sync folder, the
outcome of each `createNoteOnServer` HTTP call (`some msg` = non-2xx, which
throws `Failed to create note: msg`), the per-file `cancelRequested`
observations, and `Date.now()`. -/
structure LuojiPushEnv where
  files : List LocalFile
  createFail : Nat → Option String
  cancel : Nat → Bool
  now : Nat

/-- The push loop of lines 237-256.  Both branches end up in
`createNoteOnServer` (line 840: `updateNoteOnServer` just delegates to it),
so every processed file contributes one `POST /notes` payload; the server's
response body is ignored and nothing is ever written back to the file. -/
def luojiPushGo (env : LuojiPushEnv) :
    List LocalFile → Nat → ServiceState → List LuojiPayload →
    Except (String × ServiceState × List LuojiPayload) (ServiceState × List LuojiPayload)
  | [], _, st, calls => Except.ok (st, calls)
  | file :: rest, i, st, calls =>
    -- loop condition: i < files.length && !this.cancelRequested
    if env.cancel i then Except.ok (st, calls)
    else
      -- lines 239-240
      let st1 := { st with status := { st.status with progress :=
        { st.status.progress with currentFile := file.basename, completed := i } } }
      -- lines 243-245
      let fm? := parseFrontMatter file.content
      let noteContent := extractNoteContent file.content
      -- lines 248-255 via lines 821-835
      match env.createFail i with
      | some m => Except.error ("Failed to create note: " ++ m, st1, calls)
      | none =>
        luojiPushGo env rest (i + 1) st1 (calls ++ [luojiCreatePayload fm? noteContent])

/-- `LuojiLabSyncService.syncToServer` (lines 204-271).  Returns the final
service state, the vault after the pass (always `env.files`: the method
contains no vault write), and the issued create payloads. -/
def luojiSyncToServer (env : LuojiPushEnv) (st0 : ServiceState) :
    ServiceState × List LocalFile × List LuojiPayload :=
  -- lines 205-208
  if st0.isSyncing then (st0, env.files, [])
  -- lines 210-213
  else if st0.settings.bearerToken = "" then (st0, env.files, [])
  else
    -- lines 215-222
    let st1 := { st0 with
      isSyncing := true
      cancelRequested := false
      status :=
        { st0.status with inProgress := true, progress := ⟨0, 0, "Preparing to sync to server..."⟩ } }
    -- lines 224-256: try block
    let r :=
      -- lines 225-228
      if st1.settings.syncFolder = "" then
        Except.error ("Sync folder not set", st1, ([] : List LuojiPayload))
      else
        -- line 233
        let st2 := { st1 with status := { st1.status with progress :=
          { st1.status.progress with total := env.files.length } } }
        luojiPushGo env env.files 0 st2 []
    match r with
    | Except.ok p =>
      -- finally (lines 267-270)
      let s1 := { p.1 with isSyncing := false }
      ({ s1 with status := { s1.status with inProgress := false } }, env.files, p.2)
    | Except.error q =>
      -- catch (lines 259-266), then finally
      let s1 := { q.2.1 with status := { q.2.1.status with
        inProgress := false
        errors := q.2.1.status.errors ++ [(⟨"", q.1, env.now⟩ : SyncError)] } }
      ({ s1 with isSyncing := false }, env.files, q.2.2)

/-! ## `FlomoSyncService` (src/unnamed/part_004) -/

/-- A memo from `GET /api/v1/memo/updated` (the fields the code reads). -/
structure FlomoMemo where
  memo_id : String
  slug : String
  title : String
  content : Str
  created_at : Nat
  updated_at : Nat
  tags : List String
  deriving Repr, DecidableEq

/-- Oracles for one Flomo pull pass: folder-creation outcome, the
`fetchMemos` outcome (a rejected promise carries its message), the per-memo
`saveFlomoNoteToLocal` outcomes, observed cancellation values, `Date.now()`.
(LLM title generation of lines 89-100 is disabled — the configuration
default — in this model.) -/
structure FlomoPullEnv where
  folderFail : Option String
  fetched : Except String (List FlomoMemo)
  saveErr : Nat → Option String
  cancel : Nat → Bool
  cancelAfterFetch : Bool
  now : Nat

/-- The memo loop of part_004 lines 85-106.  `saveFlomoNoteToLocal`
(lines 578-641) pushes the error to the status list AND rethrows, so a
failing save aborts the remaining memos. -/
def flomoPullGo (env : FlomoPullEnv) :
    List FlomoMemo → Nat → ServiceState → Except (String × ServiceState) ServiceState
  | [], _, st => Except.ok st
  | memo :: rest, i, st =>
    if env.cancel i then Except.ok st
    else
      -- lines 102-103
      let st1 := { st with status := { st.status with progress :=
        { st.status.progress with
          currentFile := if memo.slug ≠ "" then memo.slug
            else if memo.title ≠ "" then memo.title else "Untitled",
          completed := i } } }
      match env.saveErr i with
      | some m =>
        Except.error (m, { st1 with status := { st1.status with
          errors := st1.status.errors ++ [⟨"", m, env.now⟩] } })
      | none => flomoPullGo env rest (i + 1) st1

/-- `FlomoSyncService.syncFromServer` (lines 38-126). -/
def flomoSyncFromServer (env : FlomoPullEnv) (st0 : ServiceState) : ServiceState :=
  -- lines 41-44
  if st0.isSyncing then st0
  -- lines 46-49
  else if st0.settings.flomoApiToken = "" then st0
  else
    -- lines 51-58
    let st1 := { st0 with
      isSyncing := true
      cancelRequested := false
      status :=
        { st0.status with inProgress := true, progress := ⟨0, 0, "Preparing to sync..."⟩ } }
    let r : Except (String × ServiceState) ServiceState :=
      -- line 62
      match env.folderFail with
      | some m => Except.error ("Failed to create Flomo sync folder: " ++ m, st1)
      | none =>
        -- line 65
        let st2 := { st1 with status := { st1.status with progress :=
          { st1.status.progress with currentFile := "Fetching memos from Flomo..." } } }
        -- line 68
        match env.fetched with
        | Except.error m => Except.error (m, st2)
        | Except.ok memos =>
          -- lines 71-74: early return when cancelled
          if env.cancelAfterFetch then Except.ok st2
          else
            -- line 76
            let st3 := { st2 with status := { st2.status with progress :=
              { st2.status.progress with total := memos.length } } }
            -- lines 79-82: early return on empty batch (skips the
            -- lastSyncTime update)
            if memos.length = 0 then Except.ok st3
            else
              -- lines 85-106, then lines 108-111
              match flomoPullGo env memos 0 st3 with
              | Except.error p => Except.error p
              | Except.ok s =>
                Except.ok { s with
                  settings := { s.settings with lastSyncTime := env.now }
                  status := { s.status with lastSync := env.now } }
    -- lines 114-125: catch, then finally
    let st5 :=
      match r with
      | Except.ok s => s
      | Except.error p =>
        { p.2 with status := { p.2.status with
          errors := p.2.status.errors ++ [(⟨"", p.1, env.now⟩ : SyncError)] } }
    { st5 with isSyncing := false, status := { st5.status with inProgress := false } }

/-- Result shape of `createMemoOnFlomo` / `updateMemoOnFlomo`
(lines 846-992): every failure is returned as `success = false` (those
methods catch their own errors), and a successful create carries the
server-assigned memo id (`data.slug`). -/
structure FlomoCreateRes where
  success : Bool
  message : Option String
  memo_id : Option String
  deriving Repr, DecidableEq

/-- JavaScript object-spread update: overwrite the key in place when
present, append it otherwise. -/
def fmUpsert (fm : FM) (k : Str) (v : FMVal) : FM :=
  if (List.lookup k fm).isSome then
    fm.map (fun e => if e.1 = k then (k, v) else e)
  else fm ++ [(k, v)]

/-- The `updatedFrontMatter` of lines 198-203:
`{ ...(frontMatter || {}), memo_id, last_synced: Date.now(),
sync_status: 'synced' }`. -/
def flomoWriteBackFM (fm0 : FM) (mid : String) (now : Nat) : FM :=
  fmUpsert (fmUpsert (fmUpsert fm0 (lstr "memo_id") (FMVal.str (lstr mid)))
    (lstr "last_synced") (FMVal.nat now)) (lstr "sync_status") (FMVal.str (lstr "synced"))

/-- Truthiness of `frontMatter && frontMatter.memo_id` (line 180). -/
def flomoHasMemoId (fm? : Option FM) : Bool :=
  match fm? with
  | none => false
  | some fm =>
    match List.lookup (lstr "memo_id") fm with
    | some (FMVal.str v) => !v.isEmpty
    | some (FMVal.nat n) => n != 0
    | some (FMVal.arr _) => true
    | some (FMVal.bool b) => b
    | some FMVal.null => false
    | some (FMVal.int i) => i != 0
    | some (FMVal.float s) => floatTruthy s
    | none => false

/-- Oracles for one Flomo push pass.  `cancelAtEnd` is the flag value read
by the post-loop check of line 220. -/
structure FlomoPushEnv where
  files : List LocalFile
  updateRes : Nat → FlomoCreateRes
  createRes : Nat → FlomoCreateRes
  cancel : Nat → Bool
  cancelAtEnd : Bool
  now : Nat

/-- `this.plugin.app.vault.modify(file, newContent)` on the vault model. -/
def vaultModify (vault : List LocalFile) (path : String) (newContent : Str) :
    List LocalFile :=
  vault.map (fun f => if f.path = path then { f with content := newContent } else f)

/-- The push loop of part_004 lines 169-217: update existing memos, create
new ones; after a successful create that returned a memo id, rewrite the
local file with the id merged into its front matter (lines 196-207). -/
def flomoPushGo (env : FlomoPushEnv) :
    List LocalFile → Nat → ServiceState → List LocalFile → Nat → Nat →
    ServiceState × List LocalFile × Nat × Nat
  | [], _, st, vault, succ, skip => (st, vault, succ, skip)
  | file :: rest, i, st, vault, succ, skip =>
    if env.cancel i then (st, vault, succ, skip)
    else
      -- lines 171-172
      let st1 := { st with status := { st.status with progress :=
        { st.status.progress with currentFile := file.basename, completed := i } } }
      -- lines 175-177
      let fm? := flomoParseFrontMatter file.content
      let noteContent := extractContentWithoutFrontmatter file.content
      if flomoHasMemoId fm? then
        -- lines 181-191: update on Flomo
        let r := env.updateRes i
        if r.success then flomoPushGo env rest (i + 1) st1 vault (succ + 1) skip
        else
          flomoPushGo env rest (i + 1)
            { st1 with status := { st1.status with errors := st1.status.errors ++
              [⟨file.path, r.message.getD "Failed to update memo on Flomo", env.now⟩] } }
            vault succ skip
      else
        -- lines 193-215: create on Flomo
        let r := env.createRes i
        if r.success then
          match r.memo_id with
          | some mid =>
            let newContent := flomoFormatNoteContent
              (flomoWriteBackFM (fm?.getD []) mid env.now) noteContent
            flomoPushGo env rest (i + 1) st1 (vaultModify vault file.path newContent)
              (succ + 1) skip
          | none => flomoPushGo env rest (i + 1) st1 vault (succ + 1) skip
        else
          flomoPushGo env rest (i + 1)
            { st1 with status := { st1.status with errors := st1.status.errors ++
              [⟨file.path, r.message.getD "Failed to create memo on Flomo", env.now⟩] } }
            vault succ skip

/-- `FlomoSyncService.syncToServer` (lines 128-243).  The try block cannot
throw in this model — `createMemoOnFlomo` / `updateMemoOnFlomo` catch their
own errors and return `success: false` — so only the `finally` runs at the
end.  Returns the final service state and the vault after the pass. -/
def flomoSyncToServer (env : FlomoPushEnv) (st0 : ServiceState) :
    ServiceState × List LocalFile :=
  -- lines 129-132
  if st0.isSyncing then (st0, env.files)
  -- lines 134-137
  else if st0.settings.flomoApiToken = "" then (st0, env.files)
  else
    -- lines 139-146
    let st1 := { st0 with
      isSyncing := true
      cancelRequested := false
      status :=
        { st0.status with inProgress := true, progress := ⟨0, 0, "Preparing to sync to Flomo..."⟩ } }
    -- line 156
    let st2 := { st1 with status := { st1.status with progress :=
      { st1.status.progress with total := env.files.length } } }
    -- lines 158-161: early return on empty folder (finally still runs)
    if env.files.length = 0 then
      let s1 := { st2 with isSyncing := false }
      ({ s1 with status := { s1.status with inProgress := false } }, env.files)
    else
      -- lines 169-217
      let r := flomoPushGo env env.files 0 st2 env.files 0 0
      -- lines 220-223: early return when cancelled (skips the
      -- lastSyncTime update of lines 226-228)
      let st3 :=
        if env.cancelAtEnd then r.1
        else { r.1 with
          settings := { r.1.settings with lastSyncTime := env.now }
          status := { r.1.status with lastSync := env.now } }
      -- finally (lines 239-242)
      let s1 := { st3 with isSyncing := false }
      ({ s1 with status := { s1.status with inProgress := false } }, r.2.1)

/-! ### Lookup lemmas for the object-spread update -/

/-- Settings before the failing full sync of the C4 scenario. -/
def exSettingsC4 : Settings := ⟨"tok", "notes", 50, "abc123", 1111, "", ""⟩

/-- Service state before the failing full sync. -/
def exStateC4 : ServiceState :=
  ⟨exSettingsC4, false, false, ⟨false, 0, "abc123", 0, [], ⟨0, 0, ""⟩⟩⟩

/-- Oracle for C4: sync-folder creation throws before any item is processed. -/
def exEnvC4 : PullEnv :=
  ⟨fun _ => ⟨[], false⟩, fun _ => false, some "disk error", fun _ => none,
   fun _ => false, false, 2222⟩

/-- An accumulated sync error. -/
def exErrC7 : SyncError := ⟨"note.md", "boom", 7⟩

/-- A service state holding one recorded error. -/
def exStateC7 : ServiceState :=
  ⟨⟨"tok", "notes", 50, "", 0, "", ""⟩, false, false,
   ⟨false, 0, "", 0, [exErrC7], ⟨0, 0, ""⟩⟩⟩

/-- A local file whose front matter has no remote id. -/
def exFileC6 : LocalFile :=
  ⟨"notes/new.md", "new", lstr "---\ntitle: Hello\n---\n\nBody text"⟩

/-- Luoji push oracles: the single file above, all creates succeed. -/
def exPushEnvC6 : LuojiPushEnv := ⟨[exFileC6], fun _ => none, fun _ => false, 9⟩

/-- An idle service state with both tokens configured. -/
def exStateIdle : ServiceState :=
  ⟨⟨"tok", "notes", 50, "", 0, "ftok", "flomo"⟩, false, false,
   ⟨false, 0, "", 0, [], ⟨0, 0, ""⟩⟩⟩

/-- The content Flomo writes back after a successful create: the original
front matter merged with the server-assigned memo id, `last_synced` and
`sync_status`, re-serialized in front of the body (lines 196-207). -/
def flomoCreatedContent (file : LocalFile) (mid : String) (now : Nat) : Str :=
  flomoFormatNoteContent
    (flomoWriteBackFM ((flomoParseFrontMatter file.content).getD []) mid now)
    (extractContentWithoutFrontmatter file.content)

/-- A file with no front matter at all, for the C6 witness. -/
def exFileC6f : LocalFile := ⟨"flomo/new.md", "new", lstr "Just a flomo note"⟩

/-- A state captured mid-pass: a sync is in progress. -/
def exBusyState : ServiceState :=
  ⟨⟨"tok", "notes", 50, "", 0, "ftok", "flomo"⟩, true, false,
   ⟨true, 0, "", 0, [], ⟨3, 1, "x"⟩⟩⟩

/-- A benign pull environment. -/
def exPullEnvC10 : PullEnv :=
  ⟨fun _ => ⟨[], false⟩, fun _ => false, none, fun _ => none, fun _ => false, false, 5⟩

/-- Pull environment whose folder creation fails, for the C10 witness. -/
def exPullEnvC10f : PullEnv :=
  ⟨fun _ => ⟨[], false⟩, fun _ => false, some "dw", fun _ => none, fun _ => false, false, 5⟩

/-- Empty Flomo push environment for the C10 witness. -/
def exFlomoPushEnvW : FlomoPushEnv :=
  ⟨[], fun _ => ⟨true, none, none⟩, fun _ => ⟨true, none, none⟩, fun _ => false, false, 5⟩

/-- The lines (without trailing newline) `serializeToMarkdown` emits for one
key. -/
def entryLines : Str × FMVal → List Str
  | (k, FMVal.str v) => [k ++ lstr ": " ++ v]
  | (k, FMVal.nat n) => [k ++ lstr ": " ++ lstr (toString n)]
  | (k, FMVal.bool b) => [k ++ lstr ": " ++ lstr (if b then "true" else "false")]
  | (k, FMVal.null) => [k ++ lstr ": " ++ lstr "null"]
  | (k, FMVal.int i) => [k ++ lstr ": " ++ lstr (toString i)]
  | (k, FMVal.float s) => [k ++ lstr ": " ++ s]
  | (k, FMVal.arr items) => (k ++ [':']) :: items.map (fun it => lstr "  - " ++ it)

/-- All lines of the front-matter block. -/
def linesOf (fm : FM) : List Str := (fm.map entryLines).flatten

/-- Join lines with a newline between consecutive lines (no trailing one). -/
def joinNl : List Str → Str
  | [] => []
  | [l] => l
  | l :: l2 :: ls => l ++ '\n' :: joinNl (l2 :: ls)

/-- Does the string contain the close marker `\n---`? -/
def hasClose : Str → Bool
  | [] => false
  | c :: rest => ((c == '\n') && strStartsWith (lstr "---") rest) || hasClose rest

/-- A line that cannot confuse the block scanner: nonempty, newline-free,
not starting with `-`. -/
def goodLine (l : Str) : Prop :=
  l ≠ [] ∧ (∀ c ∈ l, c ≠ '\n') ∧ l.headD '-' ≠ '-'

/-- Characters allowed in keys. -/
def safeKeyChar (c : Char) : Bool := c.isAlphanum || c = '_'

/-- Characters allowed in values. -/
def safeValChar (c : Char) : Bool := c.isAlphanum || c = ' ' || c = '_'

/-- A key without special characters that js-yaml keeps as the written
string (a yaml-typed key such as `1_0` would be coerced through
`String(...)`). -/
def safeKey (k : Str) : Bool := !k.isEmpty && k.all safeKeyChar && !yamlNonString k

/-- A scalar value without special characters that js-yaml's implicit
typing keeps as a string (so no true/false/null words, no integer or float
shaped token). -/
def safeVal (v : Str) : Bool :=
  !v.isEmpty && v.all safeValChar && v.headD '_' != ' ' && v.getLastD '_' != ' '
    && !yamlNonString v

/-- An array item without special characters that js-yaml's implicit typing
keeps as a string. -/
def safeItem (it : Str) : Bool :=
  !it.isEmpty && it.all safeValChar && it.headD '_' != ' ' && it.getLastD '_' != ' '
    && !yamlNonString it

/-- A front-matter entry inside the amended claim's scope: string values
and nonempty arrays whose scalars survive js-yaml's implicit typing (an
empty array serializes as a bare `key:`, which loads back as null). -/
def safeEntry : Str × FMVal → Bool
  | (k, FMVal.str v) => safeKey k && safeVal v
  | (k, FMVal.arr items) => safeKey k && !items.isEmpty && items.all safeItem
  | _ => false

/-- Front matter inside the amended claim's scope: nonempty, every entry
safe, and no repeated key (js-yaml throws `duplicated mapping key`). -/
def SafeFM (fm : FM) : Prop :=
  fm ≠ [] ∧ fm.all safeEntry = true ∧ (fm.map Prod.fst).Nodup

/-! ### Character facts -/

/-- Concrete front matter for the C9 witness. -/
def exFM9 : FM :=
  [(lstr "remote_id", FMVal.str (lstr "r1")),
   (lstr "title", FMVal.str (lstr "Hello World")),
   (lstr "tags", FMVal.arr [lstr "tag a", lstr "tag b"])]

/-- Concrete body for the C9 witness. -/
def exBody9 : Str := lstr "Body text here"

/-- The front matter of the C9 counterexample: a title whose value is the
word `true` — no special characters, but js-yaml resolves it to a
boolean. -/
def exFM9c : FM := [(lstr "title", FMVal.str (lstr "true"))]

/-- Body for the C9 counterexample. -/
def exBody9c : Str := lstr "Body"

lemma processNotesGo_cons_cancel {writeErr : Nat → Option String} {cancel : Nat → Bool}
    {now total i : Nat} {note : RemoteNote} {rest : List RemoteNote} {st : LoopState}
    (hc : cancel i = true) :
    processNotesGo writeErr cancel now total (note :: rest) i st = st := by
  simp [processNotesGo, hc]

lemma processNotesGo_cons_skip {writeErr : Nat → Option String} {cancel : Nat → Bool}
    {now total i : Nat} {note : RemoteNote} {rest : List RemoteNote} {st : LoopState}
    (hc : cancel i = false) (hmem : note.id ∈ st.processedIds) :
    processNotesGo writeErr cancel now total (note :: rest) i st
      = processNotesGo writeErr cancel now total rest (i + 1)
          { st with skipCount := st.skipCount + 1 } := by
  simp [processNotesGo, hc, hmem]

lemma processNotesGo_cons_ok {writeErr : Nat → Option String} {cancel : Nat → Bool}
    {now total i : Nat} {note : RemoteNote} {rest : List RemoteNote} {st : LoopState}
    (hc : cancel i = false) (hmem : note.id ∉ st.processedIds) (hw : writeErr i = none) :
    processNotesGo writeErr cancel now total (note :: rest) i st
      = processNotesGo writeErr cancel now total rest (i + 1) (stepOk note i total st) := by
  simp [processNotesGo, hc, hmem, hw, stepOk]

lemma processNotesGo_cons_err {writeErr : Nat → Option String} {cancel : Nat → Bool}
    {now total i : Nat} {note : RemoteNote} {rest : List RemoteNote} {st : LoopState}
    {msg : String}
    (hc : cancel i = false) (hmem : note.id ∉ st.processedIds) (hw : writeErr i = some msg) :
    processNotesGo writeErr cancel now total (note :: rest) i st
      = processNotesGo writeErr cancel now total rest (i + 1) (stepErr note i total now msg st) := by
  simp [processNotesGo, hc, hmem, hw, stepErr]

/-! ### Loop invariants -/

/-- With no cancellation, every iterated note bumps exactly one of the three
counters, so their sum grows by the length of the remaining batch. -/
lemma processNotesGo_counts (writeErr : Nat → Option String) (now total : Nat) :
    ∀ (rest : List RemoteNote) (i : Nat) (st : LoopState),
      (processNotesGo writeErr (fun _ => false) now total rest i st).successCount
        + (processNotesGo writeErr (fun _ => false) now total rest i st).skipCount
        + (processNotesGo writeErr (fun _ => false) now total rest i st).errorCount
      = st.successCount + st.skipCount + st.errorCount + rest.length := by
  intro rest
  induction rest with
  | nil => intro i st; simp [processNotesGo]
  | cons note rest ih =>
    intro i st
    by_cases hmem : note.id ∈ st.processedIds
    · rw [processNotesGo_cons_skip rfl hmem, ih]
      simp; omega
    · cases hw : writeErr i with
      | none =>
        rw [processNotesGo_cons_ok rfl hmem hw, ih]
        simp [stepOk]; omega
      | some msg =>
        rw [processNotesGo_cons_err rfl hmem hw, ih]
        simp [stepErr]; omega

/-- A run whose cancellation flag first reads true at index `k` is the
uncancelled run over the first `k` remaining notes (loop indices and the
displayed total are unchanged). -/
lemma processNotesGo_cancel_take (writeErr : Nat → Option String) (now total k : Nat) :
    ∀ (rest : List RemoteNote) (i : Nat) (st : LoopState),
      processNotesGo writeErr (fun j => decide (k ≤ j)) now total rest i st
        = processNotesGo writeErr (fun _ => false) now total (rest.take (k - i)) i st := by
  intro rest
  induction rest with
  | nil => intro i st; simp [processNotesGo]
  | cons note rest ih =>
    intro i st
    by_cases hk : k ≤ i
    · have hz : k - i = 0 := Nat.sub_eq_zero_of_le hk
      rw [processNotesGo_cons_cancel (by simp [hk]), hz]
      rfl
    · have hpos : 0 < k - i := Nat.sub_pos_of_lt (Nat.lt_of_not_le hk)
      have htake : (note :: rest).take (k - i) = note :: rest.take (k - (i + 1)) := by
        rw [List.take_cons hpos, Nat.sub_sub]
      rw [htake]
      have hc : (fun j => decide (k ≤ j)) i = false := by simp [hk]
      by_cases hmem : note.id ∈ st.processedIds
      · rw [processNotesGo_cons_skip hc hmem, processNotesGo_cons_skip rfl hmem]
        exact ih (i + 1) _
      · cases hw : writeErr i with
        | none =>
          rw [processNotesGo_cons_ok hc hmem hw, processNotesGo_cons_ok rfl hmem hw]
          exact ih (i + 1) _
        | some msg =>
          rw [processNotesGo_cons_err hc hmem hw, processNotesGo_cons_err rfl hmem hw]
          exact ih (i + 1) _

/-- Invariant: `processedNoteIds` is exactly the list of ids of the notes
handed to `createOrUpdateLocalNote`, and it never shrinks. -/
lemma processNotesGo_ids (writeErr : Nat → Option String) (cancel : Nat → Bool)
    (now total : Nat) :
    ∀ (rest : List RemoteNote) (i : Nat) (st : LoopState),
      st.processedIds = st.attempted.map RemoteNote.id →
      (processNotesGo writeErr cancel now total rest i st).processedIds
          = (processNotesGo writeErr cancel now total rest i st).attempted.map RemoteNote.id
        ∧ st.processedIds ⊆ (processNotesGo writeErr cancel now total rest i st).processedIds := by
  intro rest
  induction rest with
  | nil => intro i st h; exact ⟨h, fun a ha => ha⟩
  | cons note rest ih =>
    intro i st h
    cases hc : cancel i with
    | true =>
      rw [processNotesGo_cons_cancel hc]
      exact ⟨h, fun a ha => ha⟩
    | false =>
      by_cases hmem : note.id ∈ st.processedIds
      · rw [processNotesGo_cons_skip hc hmem]
        exact ih (i + 1) _ h
      · cases hw : writeErr i with
        | none =>
          rw [processNotesGo_cons_ok hc hmem hw]
          obtain ⟨h1, h2⟩ := ih (i + 1) (stepOk note i total st) (by simp [stepOk, h])
          exact ⟨h1, fun a ha => h2 (by simp [stepOk]; exact Or.inl ha)⟩
        | some msg =>
          rw [processNotesGo_cons_err hc hmem hw]
          obtain ⟨h1, h2⟩ := ih (i + 1) (stepErr note i total now msg st) (by simp [stepErr, h])
          exact ⟨h1, fun a ha => h2 (by simp [stepErr]; exact Or.inl ha)⟩

/-- Under any cancellation schedule the loop never hands the same remote id
to `createOrUpdateLocalNote` twice. -/
lemma processNotesGo_nodup (writeErr : Nat → Option String) (cancel : Nat → Bool)
    (now total : Nat) :
    ∀ (rest : List RemoteNote) (i : Nat) (st : LoopState),
      st.processedIds = st.attempted.map RemoteNote.id →
      (st.attempted.map RemoteNote.id).Nodup →
      ((processNotesGo writeErr cancel now total rest i st).attempted.map RemoteNote.id).Nodup := by
  intro rest
  induction rest with
  | nil => intro i st _ hnd; exact hnd
  | cons note rest ih =>
    intro i st h hnd
    cases hc : cancel i with
    | true => rw [processNotesGo_cons_cancel hc]; exact hnd
    | false =>
      by_cases hmem : note.id ∈ st.processedIds
      · rw [processNotesGo_cons_skip hc hmem]
        exact ih (i + 1) _ h hnd
      · have hnd' : ((st.attempted ++ [note]).map RemoteNote.id).Nodup := by
          simp only [List.map_append, List.map_cons, List.map_nil]
          refine List.Nodup.append hnd (List.nodup_singleton _) ?_
          intro a ha hb
          simp only [List.mem_singleton] at hb
          subst hb
          exact hmem (h ▸ ha)
        cases hw : writeErr i with
        | none =>
          rw [processNotesGo_cons_ok hc hmem hw]
          exact ih (i + 1) _ (by simp [stepOk, h]) (by simpa [stepOk] using hnd')
        | some msg =>
          rw [processNotesGo_cons_err hc hmem hw]
          exact ih (i + 1) _ (by simp [stepErr, h]) (by simpa [stepErr] using hnd')

/-- With no cancellation, each iterated note is either attempted or skipped,
and every iterated note's id ends up in `processedNoteIds`. -/
lemma processNotesGo_coverage (writeErr : Nat → Option String) (now total : Nat) :
    ∀ (rest : List RemoteNote) (i : Nat) (st : LoopState),
      st.processedIds = st.attempted.map RemoteNote.id →
      (processNotesGo writeErr (fun _ => false) now total rest i st).attempted.length
          + (processNotesGo writeErr (fun _ => false) now total rest i st).skipCount
        = st.attempted.length + st.skipCount + rest.length
      ∧ ∀ n ∈ rest, n.id ∈
          (processNotesGo writeErr (fun _ => false) now total rest i st).processedIds := by
  intro rest
  induction rest with
  | nil => intro i st _; exact ⟨by simp [processNotesGo], by simp⟩
  | cons note rest ih =>
    intro i st h
    by_cases hmem : note.id ∈ st.processedIds
    · rw [processNotesGo_cons_skip rfl hmem]
      obtain ⟨h1, h2⟩ := ih (i + 1) { st with skipCount := st.skipCount + 1 } h
      refine ⟨by rw [h1]; simp; omega, ?_⟩
      intro n hn
      rcases List.mem_cons.mp hn with rfl | hn'
      · exact (processNotesGo_ids writeErr (fun _ => false) now total rest (i + 1)
          { st with skipCount := st.skipCount + 1 } h).2 hmem
      · exact h2 n hn'
    · cases hw : writeErr i with
      | none =>
        rw [processNotesGo_cons_ok rfl hmem hw]
        obtain ⟨h1, h2⟩ := ih (i + 1) (stepOk note i total st) (by simp [stepOk, h])
        refine ⟨by rw [h1]; simp [stepOk]; omega, ?_⟩
        intro n hn
        rcases List.mem_cons.mp hn with rfl | hn'
        · refine (processNotesGo_ids writeErr (fun _ => false) now total rest (i + 1) _
            (by simp [stepOk, h])).2 ?_
          simp [stepOk]
        · exact h2 n hn'
      | some msg =>
        rw [processNotesGo_cons_err rfl hmem hw]
        obtain ⟨h1, h2⟩ := ih (i + 1) (stepErr note i total now msg st) (by simp [stepErr, h])
        refine ⟨by rw [h1]; simp [stepErr]; omega, ?_⟩
        intro n hn
        rcases List.mem_cons.mp hn with rfl | hn'
        · refine (processNotesGo_ids writeErr (fun _ => false) now total rest (i + 1) _
            (by simp [stepErr, h])).2 ?_
          simp [stepErr]
        · exact h2 n hn'

/-! ### Concrete batches used in claim examples -/

/-- C1: for every pull pass over a fetched batch that runs to the end without
cancellation (and past the whole-pass guards), the reported counts satisfy
`successCount + skipCount + errorCount = notes.length`; and on the concrete
5-note batch where exactly the third note's local write throws, the summary is
4 succeeded / 0 skipped / 1 errored with exactly one error entry naming that
note's title. -/
theorem c1_pull_counts :
    (∀ (writeErr : Nat → Option String) (now : Nat) (notes : List RemoteNote),
      (runPullLoop writeErr (fun _ => false) now notes).successCount
        + (runPullLoop writeErr (fun _ => false) now notes).skipCount
        + (runPullLoop writeErr (fun _ => false) now notes).errorCount = notes.length)
    ∧ (runPullLoop exWriteErr5 (fun _ => false) 0 exNotes5).successCount = 4
    ∧ (runPullLoop exWriteErr5 (fun _ => false) 0 exNotes5).skipCount = 0
    ∧ (runPullLoop exWriteErr5 (fun _ => false) 0 exNotes5).errorCount = 1
    ∧ (runPullLoop exWriteErr5 (fun _ => false) 0 exNotes5).errors
        = [⟨"Note 3", "Failed to save note: boom", 0⟩]
    ∧ (runPullLoop exWriteErr5 (fun _ => false) 0 exNotes5).currentFile
        = "Completed: 4 notes saved, 0 skipped, 1 errors" := by
  refine ⟨?_, ?_, ?_, ?_, ?_, ?_⟩
  · intro writeErr now notes
    have h := processNotesGo_counts writeErr now notes.length notes 0 initLoopState
    simpa [runPullLoop, processNotes, initLoopState] using h
  all_goals decide

/-- C5 (amended): a pull pass whose cancellation flag turns true at loop index
`k` processes exactly the first `k` notes — the files written so far and the
accumulated error list are exactly those of the uncancelled prefix run and are
left intact — but the resulting status does NOT record a `Cancelled` state:
lines 182-184 still run, setting `progress.completed = notes.length` and the
`"Completed: ..."` summary, exactly as in an uncancelled pass. -/
theorem c5_cancellation_amended :
    ∀ (writeErr : Nat → Option String) (now k : Nat) (notes : List RemoteNote),
      runPullLoop writeErr (fun i => decide (k ≤ i)) now notes
        = cancelledPullResult writeErr now k notes := by
  intro writeErr now k notes
  have h := processNotesGo_cancel_take writeErr now notes.length k notes 0 initLoopState
  simp only [runPullLoop, processNotes, cancelledPullResult, h, Nat.sub_zero]

/-- C5 (counterexample to "the resulting sync status reflects `Cancelled`"):
cancelling a 2-note pass after the first note leaves a final status that is a
plain completion summary — `progress.completed` equals the full batch size and
`currentFile` is the `"Completed: ..."` string — with no component recording a
cancelled state (the `SyncStatus` type has none). -/
theorem c5_cancelled_status_counterexample :
    (runPullLoop (fun _ => none) (fun i => decide (1 ≤ i)) 0
        [mkNote "a1" "A", mkNote "b2" "B"]).currentFile
      = "Completed: 1 notes saved, 0 skipped, 0 errors"
    ∧ (runPullLoop (fun _ => none) (fun i => decide (1 ≤ i)) 0
        [mkNote "a1" "A", mkNote "b2" "B"]).completedProg = 2
    ∧ (runPullLoop (fun _ => none) (fun i => decide (1 ≤ i)) 0
        [mkNote "a1" "A", mkNote "b2" "B"]).attempted = [mkNote "a1" "A"]
    ∧ (runPullLoop (fun _ => none) (fun i => decide (1 ≤ i)) 0
        [mkNote "a1" "A", mkNote "b2" "B"]).written = ["a1"]
    ∧ (runPullLoop (fun _ => none) (fun i => decide (1 ≤ i)) 0
        [mkNote "a1" "A", mkNote "b2" "B"]).errors = [] := by
  decide

/-- C8: within a single pull pass no remote id is handed to
`createOrUpdateLocalNote` twice (under any cancellation schedule); in a
full uncancelled pass every iterated note is either attempted or counted in
`skipCount`, and every fetched id is attempted (once). -/
theorem c8_duplicate_ids_processed_once :
    ∀ (writeErr : Nat → Option String) (cancel : Nat → Bool) (now : Nat)
      (notes : List RemoteNote),
      ((processNotes writeErr cancel now notes).attempted.map RemoteNote.id).Nodup
      ∧ (processNotes writeErr (fun _ => false) now notes).attempted.length
          + (processNotes writeErr (fun _ => false) now notes).skipCount = notes.length
      ∧ ∀ n ∈ notes, n.id ∈
          ((processNotes writeErr (fun _ => false) now notes).attempted.map RemoteNote.id) := by
  intro writeErr cancel now notes
  refine ⟨?_, ?_, ?_⟩
  · exact processNotesGo_nodup writeErr cancel now notes.length notes 0 initLoopState rfl
      (by simp [initLoopState])
  · have h := (processNotesGo_coverage writeErr now notes.length notes 0 initLoopState rfl).1
    simpa [processNotes, initLoopState] using h
  · intro n hn
    have h2 := (processNotesGo_coverage writeErr now notes.length notes 0 initLoopState rfl).2 n hn
    have hids := (processNotesGo_ids writeErr (fun _ => false) now notes.length notes 0
      initLoopState rfl).1
    rw [processNotes, ← hids]
    exact h2

/-! ## Fetch requests and pagination

`fetchRemoteNotesWithPagination` (src/unnamed/part_001 lines 399-460) builds
its query string by appending parameters in order; we model a request as the
ordered list of `(key, value)` pairs.  `fetchAllNotes` (lines 462-580) builds
its page URLs directly in the same `(limit, since_id, sort)` shape. -/

lemma getLastD_mem {α : Type} : ∀ (l : List α) (d : α), l ≠ [] → l.getLastD d ∈ l := by
  intro l
  induction l with
  | nil => intro d h; exact absurd rfl h
  | cons a t ih =>
    intro d _
    cases t with
    | nil => simp [List.getLastD]
    | cons b t' =>
      rw [List.getLastD_cons]
      exact List.mem_cons_of_mem a (ih a (by simp))

lemma fetchPagesGo_length (server : Req → Page) (pageCancel : Nat → Bool) :
    ∀ (fuel page : Nat) (hasMore : Bool) (lastId : String),
      (fetchPagesGo server pageCancel fuel page hasMore lastId).2.length ≤ fuel := by
  intro fuel
  induction fuel with
  | zero => intro page hasMore lastId; simp [fetchPagesGo]
  | succ fuel ih =>
    intro page hasMore lastId
    rw [fetchPagesGo]
    by_cases h1 : hasMore = false
    · simp [h1]
    · simp only [if_neg h1]
      by_cases h2 : pageCancel page
      · simp [h2]
      · simp only [if_neg h2]
        by_cases h3 : lastId = ""
        · simp [h3]
        · simp only [if_neg h3]
          by_cases h4 : (server (nextReq lastId)).list = []
          · simp [h4]
          · simp only [if_neg h4]
            have := ih (page + 1) (server (nextReq lastId)).has_more
              (lastIdOf (server (nextReq lastId)).list)
            simpa using Nat.succ_le_succ this

lemma fetchPagesGo_chain (server : Req → Page) (pageCancel : Nat → Bool) :
    ∀ (fuel page : Nat) (hasMore : Bool) (lastId : String),
      chainedFrom server lastId (fetchPagesGo server pageCancel fuel page hasMore lastId).2 := by
  intro fuel
  induction fuel with
  | zero => intro page hasMore lastId; simp [fetchPagesGo, chainedFrom]
  | succ fuel ih =>
    intro page hasMore lastId
    rw [fetchPagesGo]
    by_cases h1 : hasMore = false
    · simp [h1, chainedFrom]
    · simp only [if_neg h1]
      by_cases h2 : pageCancel page
      · simp [h2, chainedFrom]
      · simp only [if_neg h2]
        by_cases h3 : lastId = ""
        · simp [h3, chainedFrom]
        · simp only [if_neg h3]
          by_cases h4 : (server (nextReq lastId)).list = []
          · simp [h4, chainedFrom]
          · simp only [if_neg h4]
            exact ⟨rfl, ih (page + 1) _ _⟩

lemma fetchPagesGo_stop (server : Req → Page) (pageCancel : Nat → Bool)
    (hcancel : ∀ p, pageCancel p = false)
    (hids : ∀ r, ∀ n ∈ (server r).list, n.id ≠ "") :
    ∀ (fuel page : Nat) (hasMore : Bool) (lastId : String), lastId ≠ "" →
      (fetchPagesGo server pageCancel fuel page hasMore lastId).2.length = fuel
      ∨ (hasMore = false
          ∧ (fetchPagesGo server pageCancel fuel page hasMore lastId).2 = [])
      ∨ stopOk server (fetchPagesGo server pageCancel fuel page hasMore lastId).2 := by
  intro fuel
  induction fuel with
  | zero => intro page hasMore lastId _; left; simp [fetchPagesGo]
  | succ fuel ih =>
    intro page hasMore lastId hlast
    rw [fetchPagesGo]
    by_cases h1 : hasMore = false
    · right; left; simp [h1]
    · rw [if_neg h1, if_neg (show ¬(pageCancel page = true) from by simp [hcancel page]),
          if_neg hlast]
      by_cases h4 : (server (nextReq lastId)).list = []
      · right; right
        refine ⟨nextReq lastId, ?_, Or.inr h4⟩
        simp [h4]
      · simp only [if_neg h4]
        have hlast' : lastIdOf (server (nextReq lastId)).list ≠ "" :=
          hids (nextReq lastId) _ (getLastD_mem _ _ h4)
        rcases ih (page + 1) (server (nextReq lastId)).has_more
            (lastIdOf (server (nextReq lastId)).list) hlast' with hlen | ⟨hm, hnil⟩ | hstop
        · left; simp [hlen]
        · right; right
          refine ⟨nextReq lastId, ?_, Or.inl hm⟩
          simp [hnil]
        · right; right
          obtain ⟨r, hr, hcond⟩ := hstop
          refine ⟨r, ?_, hcond⟩
          rcases hq : (fetchPagesGo server pageCancel fuel (page + 1)
              (server (nextReq lastId)).has_more
              (lastIdOf (server (nextReq lastId)).list)).2 with _ | ⟨a, l⟩
          · rw [hq] at hr; simp at hr
          · rw [hq] at hr
            simpa [List.getLast?_cons_cons] using hr

/-- C2: a full sync ignores the stored cursor id, the stored time, and the
configured fetch limit — `pullDispatch` with `isFullSync` selects the
`fetchAllNotes` walk for every settings value, whose first request is
`limit=20&sort=create_desc` with no `since_id`; the walk issues at most
`maxPages = 500` page requests, every later request advances `since_id` to
the last item's id of the previous response, and (absent cancellation, for
servers returning nonblank ids) it stops only at the page ceiling, a
`has_more = false` response, or an empty batch. -/
theorem c2_full_sync_pagination :
    (∀ (s : Settings) (isAutoSync : Bool), pullDispatch s isAutoSync true = PullPlan.fullFetch)
    ∧ ∀ (server : Req → Page) (pageCancel : Nat → Bool),
        (fetchAllNotes server pageCancel).2.head? = some firstReq
        ∧ (fetchAllNotes server pageCancel).2.length ≤ maxPages
        ∧ ((∀ p, pageCancel p = false) →
           (∀ r, ∀ n ∈ (server r).list, n.id ≠ "") →
           chainedFrom server (lastIdOf (server firstReq).list)
             (fetchAllNotes server pageCancel).2.tail
           ∧ ((fetchAllNotes server pageCancel).2.length = maxPages
              ∨ stopOk server (fetchAllNotes server pageCancel).2)) := by
  refine ⟨fun s isAutoSync => rfl, ?_⟩
  intro server pageCancel
  by_cases hfb : (server firstReq).list = []
  · refine ⟨by simp [fetchAllNotes, hfb], by simp [fetchAllNotes, hfb, maxPages], ?_⟩
    intro _ _
    refine ⟨by simp [fetchAllNotes, hfb, chainedFrom], Or.inr ?_⟩
    exact ⟨firstReq, by simp [fetchAllNotes, hfb], Or.inr hfb⟩
  · have hunfold : (fetchAllNotes server pageCancel).2
        = firstReq :: (fetchPagesGo server pageCancel (maxPages - 1) 2
            (server firstReq).has_more (lastIdOf (server firstReq).list)).2 := by
      simp [fetchAllNotes, hfb]
    refine ⟨by simp [hunfold], ?_, ?_⟩
    · rw [hunfold]
      have := fetchPagesGo_length server pageCancel (maxPages - 1) 2
        (server firstReq).has_more (lastIdOf (server firstReq).list)
      simp only [List.length_cons, maxPages] at this ⊢
      omega
    · intro hcancel hids
      have hlast : lastIdOf (server firstReq).list ≠ "" :=
        hids firstReq _ (getLastD_mem _ _ hfb)
      refine ⟨?_, ?_⟩
      · rw [hunfold]
        exact fetchPagesGo_chain server pageCancel (maxPages - 1) 2
          (server firstReq).has_more (lastIdOf (server firstReq).list)
      · rcases fetchPagesGo_stop server pageCancel hcancel hids (maxPages - 1) 2
            (server firstReq).has_more (lastIdOf (server firstReq).list) hlast
          with hlen | ⟨hm, hnil⟩ | hstop
        · left
          rw [hunfold]
          simp only [List.length_cons, maxPages] at hlen ⊢
          omega
        · right
          refine ⟨firstReq, ?_, Or.inl hm⟩
          rw [hunfold, hnil]
          rfl
        · right
          obtain ⟨r, hr, hcond⟩ := hstop
          refine ⟨r, ?_, hcond⟩
          rw [hunfold]
          rcases hq : (fetchPagesGo server pageCancel (maxPages - 1) 2
              (server firstReq).has_more (lastIdOf (server firstReq).list)).2
            with _ | ⟨a, l⟩
          · rw [hq] at hr; simp at hr
          · rw [hq] at hr
            simpa [List.getLast?_cons_cons] using hr

/-- Witness for C2: on a concrete server whose single page has a nonblank id
and `has_more = false`, the hypotheses hold and the conditional conclusions
evaluate. -/
theorem c2_full_sync_pagination_witness :
    (∀ r, ∀ n ∈ (exServerC2 r).list, n.id ≠ "")
    ∧ chainedFrom exServerC2 (lastIdOf (exServerC2 firstReq).list)
        (fetchAllNotes exServerC2 (fun _ => false)).2.tail
    ∧ ((fetchAllNotes exServerC2 (fun _ => false)).2.length = maxPages
        ∨ stopOk exServerC2 (fetchAllNotes exServerC2 (fun _ => false)).2) := by
  have hids : ∀ r, ∀ n ∈ (exServerC2 r).list, n.id ≠ "" := by
    intro r n hn
    simp only [exServerC2, List.mem_singleton] at hn
    subst hn
    decide
  have h := (c2_full_sync_pagination.2 exServerC2 (fun _ => false)).2.2
    (fun p => rfl) hids
  exact ⟨hids, h.1, h.2⟩

/-- C3 (counterexample): a manual (non-auto) pull with stored cursor
`"abc123"` but `lastSyncTime = 0` and `noteFetchLimit = 50` issues a request
that DOES contain a `limit` parameter (`limit=50`), contradicting the claim
that no fetch-limit parameter is applied. -/
theorem c3_limit_param_applied :
    pullDispatch exSettingsC3 false false
      = PullPlan.single
          [("limit", "50"), ("since_id", "abc123"), ("sort", "create_desc")] := by
  decide

/-- C3 (amended): every pull with a stored (nonblank) cursor id issues a
single request containing `since_id=<cursor>`; the `limit` parameter is
omitted when the pull is an auto sync or a positive `lastSyncTime` is stored,
but when neither holds and `noteFetchLimit` is positive the request carries
`limit=noteFetchLimit`. -/
theorem c3_cursor_request_amended :
    ∀ (s : Settings) (isAutoSync : Bool),
      trimStr s.lastSyncId ≠ "" →
      ∃ ps, pullDispatch s isAutoSync false = PullPlan.single ps
        ∧ ("since_id", s.lastSyncId) ∈ ps
        ∧ ((isAutoSync = true ∨ 0 < s.lastSyncTime) → ∀ v, ("limit", v) ∉ ps)
        ∧ (isAutoSync = false → s.lastSyncTime = 0 → 0 < s.noteFetchLimit →
            ("limit", toString s.noteFetchLimit) ∈ ps) := by
  intro s isAutoSync h
  by_cases hcase : isAutoSync = true ∨ 0 < s.lastSyncTime
  · refine ⟨[("since_id", s.lastSyncId), ("sort", "create_desc")], ?_, by simp, ?_, ?_⟩
    · simp [pullDispatch, h, hcase, buildParams]
    · intro _ v
      simp
    · intro h1 h2 _
      rcases hcase with hl | hr
      · exact absurd hl (by simp [h1])
      · omega
  · by_cases hlim : 0 < s.noteFetchLimit
    · refine ⟨[("limit", toString s.noteFetchLimit), ("since_id", s.lastSyncId),
        ("sort", "create_desc")], ?_, by simp, ?_, ?_⟩
      · simp [pullDispatch, h, hcase, buildParams, hlim]
      · intro hcon _
        exact absurd hcon hcase
      · intro _ _ _
        simp
    · refine ⟨[("since_id", s.lastSyncId), ("sort", "create_desc")], ?_, by simp, ?_, ?_⟩
      · simp [pullDispatch, h, hcase, buildParams, hlim]
      · intro _ v
        simp
      · intro _ _ hpos
        exact absurd hpos hlim

/-- Witness for the amended C3 at a concrete incremental-state input. -/
theorem c3_cursor_request_amended_witness :
    trimStr exSettingsC3w.lastSyncId ≠ ""
    ∧ ∃ ps, pullDispatch exSettingsC3w false false = PullPlan.single ps
        ∧ ("since_id", exSettingsC3w.lastSyncId) ∈ ps
        ∧ ((false = true ∨ 0 < exSettingsC3w.lastSyncTime) → ∀ v, ("limit", v) ∉ ps)
        ∧ (false = false → exSettingsC3w.lastSyncTime = 0 →
            0 < exSettingsC3w.noteFetchLimit →
            ("limit", toString exSettingsC3w.noteFetchLimit) ∈ ps) :=
  ⟨by decide, c3_cursor_request_amended exSettingsC3w false (by decide)⟩

/-! ## Front-matter codec

`serializeToMarkdown` / `parseFrontMatter` of `LuojiLabSyncService`
(src/unnamed/part_001 lines 771-805) and `formatNoteContent` /
`parseFrontMatter` of `FlomoSyncService` (src/unnamed/part_004 lines
726-808).  Front matter is a key/value object; we embed it as an ordered
association list (JavaScript objects preserve insertion order and cannot
repeat keys). -/

lemma map_upsert_cons_eq (a k : Str) (b v : FMVal) (fm : FM) (ha : a = k) :
    List.map (fun e => if e.1 = k then (k, v) else e) ((a, b) :: fm)
      = (k, v) :: List.map (fun e => if e.1 = k then (k, v) else e) fm := by
  rw [List.map_cons]
  congr 1
  exact if_pos ha

lemma map_upsert_cons_ne (a k : Str) (b v : FMVal) (fm : FM) (ha : ¬a = k) :
    List.map (fun e => if e.1 = k then (k, v) else e) ((a, b) :: fm)
      = (a, b) :: List.map (fun e => if e.1 = k then (k, v) else e) fm := by
  rw [List.map_cons]
  congr 1
  exact if_neg ha

lemma lookup_map_upsert_self : ∀ (fm : FM) (k : Str) (v : FMVal),
    (List.lookup k fm).isSome →
    List.lookup k (fm.map (fun e => if e.1 = k then (k, v) else e)) = some v := by
  intro fm k v
  induction fm with
  | nil => intro h; simp at h
  | cons e fm' ih =>
    obtain ⟨a, b⟩ := e
    intro h
    by_cases ha : a = k
    · rw [map_upsert_cons_eq a k b v fm' ha]
      simp [List.lookup]
    · have hba : (k == a) = false := beq_eq_false_iff_ne.mpr (fun hh => ha hh.symm)
      simp only [List.lookup, hba] at h
      rw [map_upsert_cons_ne a k b v fm' ha]
      simp only [List.lookup, hba]
      exact ih h

lemma lookup_append_single_self : ∀ (fm : FM) (k : Str) (v : FMVal),
    List.lookup k fm = none → List.lookup k (fm ++ [(k, v)]) = some v := by
  intro fm k v
  induction fm with
  | nil => intro _; simp [List.lookup]
  | cons e fm' ih =>
    obtain ⟨a, b⟩ := e
    intro h
    have hba : (k == a) = false := by
      by_contra hc
      rw [Bool.not_eq_false, beq_iff_eq] at hc
      simp [List.lookup, hc] at h
    simp only [List.lookup, hba] at h
    simp only [List.cons_append, List.lookup, hba]
    exact ih h

lemma lookup_map_upsert_ne : ∀ (fm : FM) (k k' : Str) (v : FMVal), k ≠ k' →
    List.lookup k (fm.map (fun e => if e.1 = k' then (k', v) else e))
      = List.lookup k fm := by
  intro fm k k' v hkk
  induction fm with
  | nil => simp
  | cons e fm' ih =>
    obtain ⟨a, b⟩ := e
    by_cases ha : a = k'
    · have hba : (k == a) = false := beq_eq_false_iff_ne.mpr (ha ▸ hkk)
      have hbk : (k == k') = false := beq_eq_false_iff_ne.mpr hkk
      rw [map_upsert_cons_eq a k' b v fm' ha]
      simp only [List.lookup, hba, hbk]
      exact ih
    · rw [map_upsert_cons_ne a k' b v fm' ha]
      by_cases hk2 : (k == a) = true
      · simp only [List.lookup, hk2]
      · simp only [Bool.not_eq_true] at hk2
        simp only [List.lookup, hk2]
        exact ih

lemma lookup_append_single_ne : ∀ (fm : FM) (k k' : Str) (v : FMVal), k ≠ k' →
    List.lookup k (fm ++ [(k', v)]) = List.lookup k fm := by
  intro fm k k' v hkk
  induction fm with
  | nil =>
    have hbk : (k == k') = false := beq_eq_false_iff_ne.mpr hkk
    simp [List.lookup, hbk]
  | cons e fm' ih =>
    obtain ⟨a, b⟩ := e
    by_cases hk2 : (k == a) = true
    · simp only [List.cons_append, List.lookup, hk2]
    · simp only [Bool.not_eq_true] at hk2
      simp only [List.cons_append, List.lookup, hk2]
      exact ih

lemma lookup_fmUpsert_self (fm : FM) (k : Str) (v : FMVal) :
    List.lookup k (fmUpsert fm k v) = some v := by
  rw [fmUpsert]
  by_cases h : (List.lookup k fm).isSome
  · rw [if_pos h]
    exact lookup_map_upsert_self fm k v h
  · rw [if_neg h]
    exact lookup_append_single_self fm k v (Option.not_isSome_iff_eq_none.mp h)

lemma lookup_fmUpsert_ne (fm : FM) (k k' : Str) (v : FMVal) (hkk : k ≠ k') :
    List.lookup k (fmUpsert fm k' v) = List.lookup k fm := by
  rw [fmUpsert]
  by_cases h : (List.lookup k' fm).isSome
  · rw [if_pos h]
    exact lookup_map_upsert_ne fm k k' v hkk
  · rw [if_neg h]
    exact lookup_append_single_ne fm k k' v hkk

/-! ### Claim C4: cursor restoration after a failed full sync -/

/-- C4 (code bug): when a full-sync pull throws before any item is processed
(here: sync-folder creation fails), the pass aborts and the error is
recorded — but the previously stored cursor state is NOT restored:
`syncFromServer` swallows the error inside its own try/catch, so
`SyncManager.fullSyncFromServer`'s catch (whose comment says "If sync fails,
restore original sync state to prevent data loss") never runs, and the
settings keep the cleared `lastSyncId = ""`, `lastSyncTime = 0`.  Only the
fetch limit is restored, by the `finally`. -/
theorem c4_cursor_not_restored :
    exStateC4.settings.lastSyncId = "abc123"
    ∧ exStateC4.settings.lastSyncTime = 1111
    ∧ (fullSyncFromServer exEnvC4 exStateC4).settings.lastSyncId = ""
    ∧ (fullSyncFromServer exEnvC4 exStateC4).settings.lastSyncTime = 0
    ∧ (fullSyncFromServer exEnvC4 exStateC4).settings.noteFetchLimit = 50
    ∧ (fullSyncFromServer exEnvC4 exStateC4).status.errors
        = [⟨"", "Failed to create sync folder: disk error", 2222⟩]
    ∧ (fullSyncFromServer exEnvC4 exStateC4).isSyncing = false := by
  decide

/-! ### Claim C7: clearing errors through the status object -/

/-- C7 (code bug): `SyncManager.clearErrors` never changes the service
state — it empties only the `errors` field of the shallow copy it obtained
from `getSyncStatus` (the code's own comment claims the assignment clears
the shared array by reference, but `status.errors = []` rebinds the copy's
property instead of mutating the array).  A subsequent `getSyncStatus` still
reports the old error list. -/
theorem c7_clear_errors_not_cleared :
    (∀ st : ServiceState, (clearErrors st).1 = st)
    ∧ (clearErrors exStateC7).2.errors = []
    ∧ (getSyncStatus (clearErrors exStateC7).1).errors = [exErrC7] :=
  ⟨fun _ => rfl, rfl, rfl⟩

/-! ### Claim C6: push of a file without a remote id -/

/-- C6 (counterexample): pushing a local file without a remote id through
`LuojiLabSyncService.syncToServer` issues exactly one create call — but the
file is NOT rewritten afterwards: the vault is unchanged, so its front
matter still carries no server-assigned remote id (the create response is
discarded at line 255 / 834). -/
theorem c6_luoji_no_writeback :
    hasRemoteId (parseFrontMatter exFileC6.content) = false
    ∧ (luojiSyncToServer exPushEnvC6 exStateIdle).2.2
        = [luojiCreatePayload (parseFrontMatter exFileC6.content)
            (extractNoteContent exFileC6.content)]
    ∧ (luojiSyncToServer exPushEnvC6 exStateIdle).2.1 = [exFileC6] := by
  decide

/-- C6 (amended): a push of a file whose front matter carries no remote id
issues a create call on both services, but only `FlomoSyncService` rewrites
the file afterwards — merging the server-assigned memo id (plus
`last_synced` and `sync_status`) into its front matter via
`formatNoteContent` — while `LuojiLabSyncService.syncToServer` never writes
to the vault at all. -/
theorem c6_push_create_amended :
    (∀ (env : LuojiPushEnv) (st : ServiceState),
      (luojiSyncToServer env st).2.1 = env.files)
    ∧ ∀ (file : LocalFile) (mid : String) (updRes : Nat → FlomoCreateRes)
        (now : Nat) (st : ServiceState),
        st.isSyncing = false →
        st.settings.flomoApiToken ≠ "" →
        flomoHasMemoId (flomoParseFrontMatter file.content) = false →
        (flomoSyncToServer
            ⟨[file], updRes, fun _ => ⟨true, none, some mid⟩, fun _ => false, false, now⟩
            st).2
          = [{ file with content := flomoCreatedContent file mid now }]
        ∧ List.lookup (lstr "memo_id")
            (flomoWriteBackFM ((flomoParseFrontMatter file.content).getD []) mid now)
          = some (FMVal.str (lstr mid)) := by
  constructor
  · intro env st
    unfold luojiSyncToServer
    split
    · rfl
    · split
      · rfl
      · dsimp only
        split <;> rfl
  · intro file mid updRes now st h1 h2 h3
    constructor
    · have hb : (st.settings.flomoApiToken = "") = False := by
        simp [h2]
      simp only [flomoSyncToServer, h1, Bool.false_eq_true, if_false, hb,
        flomoPushGo, h3, vaultModify]
      simp [flomoPushGo, h3, vaultModify, flomoCreatedContent]
    · rw [flomoWriteBackFM,
        lookup_fmUpsert_ne _ _ _ _ (by decide),
        lookup_fmUpsert_ne _ _ _ _ (by decide),
        lookup_fmUpsert_self]

/-- Witness for the amended C6: a concrete Flomo push of a file without a
memo id issues a successful create and rewrites the file with the id. -/
theorem c6_push_create_amended_witness :
    flomoHasMemoId (flomoParseFrontMatter exFileC6f.content) = false
    ∧ (flomoSyncToServer
          ⟨[exFileC6f], fun _ => ⟨true, none, none⟩, fun _ => ⟨true, none, some "srv9"⟩,
           fun _ => false, false, 77⟩ exStateIdle).2
        = [{ exFileC6f with content := flomoCreatedContent exFileC6f "srv9" 77 }]
    ∧ List.lookup (lstr "memo_id")
        (flomoWriteBackFM ((flomoParseFrontMatter exFileC6f.content).getD []) "srv9" 77)
      = some (FMVal.str (lstr "srv9")) := by
  have h := c6_push_create_amended.2 exFileC6f "srv9" (fun _ => ⟨true, none, none⟩) 77
    exStateIdle rfl (by decide) (by decide)
  exact ⟨by decide, h.1, h.2⟩

/-! ### Claim C10: resolution and flag discipline of the sync entry points -/

/-- C10 (counterexample): a `syncFromServer` call made while a sync is
already in progress (the auto-sync-tick scenario the reentrancy guard
exists for) resolves immediately — but at the moment its promise resolves
the service's `isSyncing` flag and `status.inProgress` are still `true`,
contradicting the claim that they are false once any call resolves. -/
theorem c10_busy_call_counterexample :
    exBusyState.isSyncing = true
    ∧ luojiSyncFromServer exPullEnvC10 false false exBusyState = exBusyState
    ∧ (luojiSyncFromServer exPullEnvC10 false false exBusyState).isSyncing = true
    ∧ (luojiSyncFromServer exPullEnvC10 false false exBusyState).status.inProgress = true := by
  decide

/-- C10 (amended): every call to `syncFromServer` / `syncToServer` on either
service resolves (all four model functions are total: every body error is
caught and recorded); for every call entered when no sync is in progress,
the resolved state has `isSyncing = false` and `status.inProgress = false`,
and a whole-pass error (folder creation) is recorded in the error list.  A
call made while a sync is in progress returns at once leaving the in-flight
flags untouched. -/
theorem c10_resolution_amended :
    ∀ (st : ServiceState),
      st.isSyncing = false → st.status.inProgress = false →
      (∀ (env : PullEnv) (isAutoSync isFullSync : Bool),
        (luojiSyncFromServer env isAutoSync isFullSync st).isSyncing = false
        ∧ (luojiSyncFromServer env isAutoSync isFullSync st).status.inProgress = false
        ∧ ∀ m, env.folderFail = some m → st.settings.bearerToken ≠ "" →
            (⟨"", "Failed to create sync folder: " ++ m, env.now⟩ : SyncError) ∈
              (luojiSyncFromServer env isAutoSync isFullSync st).status.errors)
      ∧ (∀ env : LuojiPushEnv,
          (luojiSyncToServer env st).1.isSyncing = false
          ∧ (luojiSyncToServer env st).1.status.inProgress = false)
      ∧ (∀ env : FlomoPullEnv,
          (flomoSyncFromServer env st).isSyncing = false
          ∧ (flomoSyncFromServer env st).status.inProgress = false
          ∧ ∀ m, env.folderFail = some m → st.settings.flomoApiToken ≠ "" →
              (⟨"", "Failed to create Flomo sync folder: " ++ m, env.now⟩ : SyncError) ∈
                (flomoSyncFromServer env st).status.errors)
      ∧ (∀ env : FlomoPushEnv,
          (flomoSyncToServer env st).1.isSyncing = false
          ∧ (flomoSyncToServer env st).1.status.inProgress = false) := by
  intro st h1 h2
  refine ⟨?_, ?_, ?_, ?_⟩
  · intro env isAutoSync isFullSync
    by_cases ht : st.settings.bearerToken = ""
    · simp [luojiSyncFromServer, h1, ht, h2]
    · refine ⟨?_, ?_, ?_⟩
      · simp only [luojiSyncFromServer, h1, Bool.false_eq_true, if_false, if_neg ht]
      · simp only [luojiSyncFromServer, h1, Bool.false_eq_true, if_false, if_neg ht]
      · intro m hm _
        simp only [luojiSyncFromServer, h1, Bool.false_eq_true, if_false, if_neg ht,
          luojiSyncFromServerBody, hm]
        simp
  · intro env
    by_cases ht : st.settings.bearerToken = ""
    · simp [luojiSyncToServer, h1, ht, h2]
    · simp only [luojiSyncToServer, h1, Bool.false_eq_true, if_false, if_neg ht]
      split <;> exact ⟨rfl, rfl⟩
  · intro env
    by_cases ht : st.settings.flomoApiToken = ""
    · simp [flomoSyncFromServer, h1, ht, h2]
    · refine ⟨?_, ?_, ?_⟩
      · simp only [flomoSyncFromServer, h1, Bool.false_eq_true, if_false, if_neg ht]
      · simp only [flomoSyncFromServer, h1, Bool.false_eq_true, if_false, if_neg ht]
      · intro m hm _
        simp only [flomoSyncFromServer, h1, Bool.false_eq_true, if_false, if_neg ht, hm]
        simp
  · intro env
    by_cases ht : st.settings.flomoApiToken = ""
    · simp [flomoSyncToServer, h1, ht, h2]
    · simp only [flomoSyncToServer, h1, Bool.false_eq_true, if_false, if_neg ht]
      split <;> exact ⟨rfl, rfl⟩

/-- Witness for the amended C10 at a concrete idle state. -/
theorem c10_resolution_amended_witness :
    exStateIdle.isSyncing = false
    ∧ exStateIdle.status.inProgress = false
    ∧ (luojiSyncFromServer exPullEnvC10f false false exStateIdle).isSyncing = false
    ∧ (⟨"", "Failed to create sync folder: " ++ "dw", (5 : Nat)⟩ : SyncError) ∈
        (luojiSyncFromServer exPullEnvC10f false false exStateIdle).status.errors
    ∧ (flomoSyncToServer exFlomoPushEnvW exStateIdle).1.status.inProgress = false := by
  refine ⟨rfl, rfl, ?_, ?_, ?_⟩
  · exact ((c10_resolution_amended exStateIdle rfl rfl).1 exPullEnvC10f false false).1
  · exact ((c10_resolution_amended exStateIdle rfl rfl).1 exPullEnvC10f false false).2.2
      "dw" rfl (by decide)
  · exact ((c10_resolution_amended exStateIdle rfl rfl).2.2.2 exFlomoPushEnvW).2

/-! ## C9: the front-matter round trip

`serializeToMarkdown` writes one or more lines per key; `parseFrontMatter`
captures the block before the first `\n---` and loads it with js-yaml,
whose implicit typing turns plain scalars such as `true`, `null`, `0x1A`
or `1e5` into non-strings and whose loader throws on a duplicated mapping
key — so the claimed round trip fails at in-scope inputs like a title
valued `"true"` (the counterexample below).  The amended scope is `SafeFM`:
nonempty flat front matter with distinct alphanumeric/underscore keys whose
string values and nonempty-array items use only alphanumerics, spaces and
underscores, neither start nor end with a space, and are not scalars that
js-yaml's null/bool/int/float resolvers accept. -/

lemma safeKeyChar_facts (c : Char) (h : safeKeyChar c = true) :
    c ≠ '\n' ∧ c ≠ '-' ∧ c ≠ ':' ∧ c ≠ ' ' := by
  refine ⟨?_, ?_, ?_, ?_⟩ <;> rintro rfl <;> revert h <;> decide

lemma safeValChar_ne_nl (c : Char) (h : safeValChar c = true) : c ≠ '\n' := by
  rintro rfl; revert h; decide

/-! ### hasClose and splitAtClose -/

lemma hasClose_append_nlfree (l rest : Str) (h : ∀ c ∈ l, c ≠ '\n') :
    hasClose (l ++ rest) = hasClose rest := by
  induction l with
  | nil => rfl
  | cons c l' ih =>
    have hc : (c == '\n') = false :=
      beq_eq_false_iff_ne.mpr (h c (List.mem_cons_self c l'))
    simp only [List.cons_append, hasClose, hc, Bool.false_and, Bool.false_or]
    exact ih (fun x hx => h x (List.mem_cons_of_mem c hx))

lemma prefix3_false_of_head (s : Str) (h : s.headD '-' ≠ '-') :
    strStartsWith (lstr "---") s = false := by
  cases s with
  | nil => exact absurd rfl h
  | cons c t =>
    have hb : ('-' == c) = false := beq_eq_false_iff_ne.mpr (fun hh => h hh.symm)
    show (('-' == c) && strStartsWith (lstr "--") t) = false
    rw [hb, Bool.false_and]

lemma headD_append_of_ne_nil (l r : Str) (d : Char) (h : l ≠ []) :
    (l ++ r).headD d = l.headD d := by
  cases l with
  | nil => exact absurd rfl h
  | cons c t => rfl

lemma joinNl_headD (l : Str) (ls : List Str) (hl : l ≠ []) :
    (joinNl (l :: ls)).headD '-' = l.headD '-' := by
  cases ls with
  | nil => rfl
  | cons l2 ls' => exact headD_append_of_ne_nil l _ '-' hl

lemma hasClose_joinNl (lines : List Str) (h : ∀ l ∈ lines, goodLine l) :
    hasClose (joinNl lines) = false := by
  induction lines with
  | nil => rfl
  | cons l ls ih =>
    cases ls with
    | nil =>
      have := hasClose_append_nlfree l [] (h l (List.mem_cons_self l [])).2.1
      simpa [joinNl] using this
    | cons l2 ls' =>
      have hnl : ∀ c ∈ l, c ≠ '\n' := (h l (List.mem_cons_self l _)).2.1
      have hgood2 : goodLine l2 := h l2 (by simp)
      have hpre : strStartsWith (lstr "---") (joinNl (l2 :: ls')) = false := by
        refine prefix3_false_of_head _ ?_
        rw [joinNl_headD l2 ls' hgood2.1]
        exact hgood2.2.2
      have hrest : hasClose (joinNl (l2 :: ls')) = false :=
        ih (fun x hx => h x (List.mem_cons_of_mem l hx))
      rw [joinNl, hasClose_append_nlfree l _ hnl]
      simp [hasClose, hpre, hrest]

lemma prefix3_append (ys zs : Str) :
    strStartsWith (lstr "---") (ys ++ '\n' :: zs) = strStartsWith (lstr "---") ys := by
  rcases ys with _ | ⟨a, _ | ⟨b, _ | ⟨c, t⟩⟩⟩ <;> rfl

lemma splitAtClose_append (ys zs : Str) (h : hasClose ys = false) :
    splitAtClose (ys ++ '\n' :: '-' :: '-' :: '-' :: zs) = some (ys, zs) := by
  induction ys with
  | nil => rfl
  | cons c ys' ih =>
    have h' : ((c == '\n') && strStartsWith (lstr "---") ys') = false
        ∧ hasClose ys' = false := by
      simpa [hasClose, Bool.or_eq_false_iff] using h
    obtain ⟨h1, h2⟩ := h'
    have hnot : ¬(c = '\n' ∧
        strStartsWith (lstr "---") (ys' ++ '\n' :: '-' :: '-' :: '-' :: zs) = true) := by
      rintro ⟨rfl, hp⟩
      rw [prefix3_append] at hp
      simp [hp] at h1
    simp only [List.cons_append, splitAtClose, List.append_eq, if_neg hnot, ih h2]

/-! ### splitOnChar -/

lemma splitOnChar_sepfree (sep : Char) (l : Str) (h : ∀ c ∈ l, c ≠ sep) :
    splitOnChar sep l = [l] := by
  induction l with
  | nil => rfl
  | cons c l' ih =>
    have hc : ¬(c = sep) := h c (List.mem_cons_self c l')
    rw [splitOnChar, if_neg hc, ih (fun x hx => h x (List.mem_cons_of_mem c hx))]

lemma splitOnChar_append (sep : Char) (l s : Str) (h : ∀ c ∈ l, c ≠ sep) :
    splitOnChar sep (l ++ sep :: s) = l :: splitOnChar sep s := by
  induction l with
  | nil => simp [splitOnChar]
  | cons c l' ih =>
    have hc : ¬(c = sep) := h c (List.mem_cons_self c l')
    rw [List.cons_append, splitOnChar, if_neg hc,
      ih (fun x hx => h x (List.mem_cons_of_mem c hx))]

lemma splitOnChar_joinNl (lines : List Str) (hne : lines ≠ [])
    (h : ∀ l ∈ lines, ∀ c ∈ l, c ≠ '\n') :
    splitOnChar '\n' (joinNl lines) = lines := by
  induction lines with
  | nil => exact absurd rfl hne
  | cons l ls ih =>
    cases ls with
    | nil => exact splitOnChar_sepfree '\n' l (h l (List.mem_cons_self l []))
    | cons l2 ls' =>
      rw [joinNl, splitOnChar_append '\n' l _ (h l (List.mem_cons_self l _)),
        ih (by simp) (fun x hx => h x (List.mem_cons_of_mem l hx))]

/-! ### Trimming -/

lemma dropWhile_space_eq_self (v : Str) (h : v.headD '_' ≠ ' ') :
    v.dropWhile (fun c => decide (c = ' ')) = v := by
  cases v with
  | nil => rfl
  | cons c t =>
    have : ¬(c = ' ') := h
    simp [List.dropWhile_cons, this]

lemma dropWhile_space_reverse (v : Str) (h : v.getLastD '_' ≠ ' ') :
    v.reverse.dropWhile (fun c => decide (c = ' ')) = v.reverse := by
  rcases hrev : v.reverse with _ | ⟨d, r⟩
  · rfl
  · have hv : v = (d :: r).reverse := by
      rw [← hrev, List.reverse_reverse]
    have hd : v.getLastD '_' = d := by
      rw [hv]
      simp [List.reverse_cons, List.getLastD_concat]
    have : ¬(d = ' ') := by rw [← hd]; exact h
    simp [List.dropWhile_cons, this]

lemma trimSp_eq_self (v : Str) (h1 : v.headD '_' ≠ ' ') (h2 : v.getLastD '_' ≠ ' ') :
    trimSp v = v := by
  rw [trimSp, dropWhile_space_eq_self v h1, dropWhile_space_reverse v h2,
    List.reverse_reverse]

lemma trimSp_space_cons (v : Str) (h1 : v.headD '_' ≠ ' ') (h2 : v.getLastD '_' ≠ ' ') :
    trimSp (' ' :: v) = v := by
  have hdrop : List.dropWhile (fun c => decide (c = ' ')) (' ' :: v)
      = List.dropWhile (fun c => decide (c = ' ')) v := by
    simp [List.dropWhile_cons]
  rw [trimSp, hdrop, dropWhile_space_eq_self v h1, dropWhile_space_reverse v h2,
    List.reverse_reverse]

/-! ### splitAtColon and bullets -/

lemma splitAtColon_append (k w : Str) (h : ∀ c ∈ k, c ≠ ':') :
    splitAtColon (k ++ ':' :: w) = some (k, w) := by
  induction k with
  | nil => simp [splitAtColon]
  | cons c k' ih =>
    have hc : ¬(c = ':') := h c (List.mem_cons_self c k')
    rw [List.cons_append, splitAtColon, if_neg hc,
      ih (fun x hx => h x (List.mem_cons_of_mem c hx))]

lemma isBullet_cons_false (c : Char) (t : Str) (h : c ≠ ' ') :
    isBullet (c :: t) = false := by
  have hb : (' ' == c) = false := beq_eq_false_iff_ne.mpr (fun hh => h hh.symm)
  show ((' ' == c) && strStartsWith (lstr " - ") t) = false
  rw [hb, Bool.false_and]

lemma isBullet_bullet (it : Str) : isBullet (lstr "  - " ++ it) = true := rfl

lemma bullet_drop4 (it : Str) : (lstr "  - " ++ it).drop 4 = it := rfl

/-! ### Unpacking the safety predicates -/

lemma safeKey_parts (k : Str) (h : safeKey k = true) :
    k ≠ [] ∧ (∀ c ∈ k, safeKeyChar c = true) ∧ yamlNonString k = false := by
  rw [safeKey] at h
  simp only [Bool.and_eq_true, Bool.not_eq_true', List.all_eq_true] at h
  obtain ⟨⟨h1, h2⟩, h3⟩ := h
  refine ⟨?_, h2, h3⟩
  rintro rfl
  simp at h1

lemma safeVal_parts (v : Str) (h : safeVal v = true) :
    v ≠ [] ∧ (∀ c ∈ v, safeValChar c = true) ∧ v.headD '_' ≠ ' '
      ∧ v.getLastD '_' ≠ ' ' ∧ yamlNonString v = false := by
  rw [safeVal] at h
  simp only [Bool.and_eq_true, Bool.not_eq_true', bne_iff_ne, List.all_eq_true] at h
  obtain ⟨⟨⟨⟨h1, h2⟩, h3⟩, h4⟩, h5⟩ := h
  refine ⟨?_, h2, h3, h4, h5⟩
  rintro rfl
  simp at h1

lemma safeItem_parts (it : Str) (h : safeItem it = true) :
    it ≠ [] ∧ (∀ c ∈ it, safeValChar c = true) ∧ it.headD '_' ≠ ' '
      ∧ it.getLastD '_' ≠ ' ' ∧ yamlNonString it = false := by
  rw [safeItem] at h
  simp only [Bool.and_eq_true, Bool.not_eq_true', bne_iff_ne, List.all_eq_true] at h
  obtain ⟨⟨⟨⟨h1, h2⟩, h3⟩, h4⟩, h5⟩ := h
  refine ⟨?_, h2, h3, h4, h5⟩
  rintro rfl
  simp at h1

lemma scalarVal_safe (v : Str) (h : yamlNonString v = false) :
    scalarVal v = FMVal.str v := by
  rw [yamlNonString] at h
  simp only [Bool.or_eq_false_iff] at h
  obtain ⟨⟨⟨h1, h2⟩, h3⟩, h4⟩ := h
  simp [scalarVal, h1, h2, h3, h4]

/-! ### Behaviour of `parseLineStep` on each emitted line shape -/

lemma appendToLastArr_append : ∀ (fm : FM) (k : Str) (a : List Str) (it : Str),
    appendToLastArr (fm ++ [(k, FMVal.arr a)]) it = fm ++ [(k, FMVal.arr (a ++ [it]))] := by
  intro fm k a it
  induction fm with
  | nil => rfl
  | cons e fm' ih =>
    cases fm' with
    | nil => simp [appendToLastArr]
    | cons e2 fm'' =>
      simp only [List.cons_append, appendToLastArr]
      rw [← List.cons_append, ih]
      rfl

lemma parseLineStep_scalar (acc : FM) (k v : Str) (hk : safeKey k = true)
    (hv : safeVal v = true) (hfresh : k ∉ acc.map Prod.fst) :
    parseLineStep acc (k ++ lstr ": " ++ v) = some (acc ++ [(k, FMVal.str v)]) := by
  obtain ⟨hkne, hkchars, _⟩ := safeKey_parts k hk
  obtain ⟨hvne, _, hvhead, hvlast, hvns⟩ := safeVal_parts v hv
  obtain ⟨c, k', rfl⟩ : ∃ c k', k = c :: k' := by
    cases k with
    | nil => exact absurd rfl hkne
    | cons c k' => exact ⟨c, k', rfl⟩
  have hc := safeKeyChar_facts c (hkchars c (List.mem_cons_self c k'))
  have hline : (c :: k') ++ lstr ": " ++ v = (c :: k') ++ ':' :: ' ' :: v := by
    rw [List.append_assoc]
    rfl
  have hbul : isBullet ((c :: k') ++ ':' :: ' ' :: v) = false := by
    rw [List.cons_append]
    exact isBullet_cons_false c _ hc.2.2.2
  have hcol : splitAtColon ((c :: k') ++ ':' :: ' ' :: v) = some (c :: k', ' ' :: v) :=
    splitAtColon_append (c :: k') (' ' :: v)
      (fun x hx => (safeKeyChar_facts x (hkchars x hx)).2.2.1)
  have htrim : trimSp (' ' :: v) = v := trimSp_space_cons v hvhead hvlast
  rw [hline, parseLineStep]
  simp only [hbul, Bool.false_eq_true, if_false, hcol, if_neg hfresh, htrim, if_neg hvne,
    scalarVal_safe v hvns]

lemma parseLineStep_opener (acc : FM) (k : Str) (hk : safeKey k = true)
    (hfresh : k ∉ acc.map Prod.fst) :
    parseLineStep acc (k ++ [':']) = some (acc ++ [(k, FMVal.arr [])]) := by
  obtain ⟨hkne, hkchars, _⟩ := safeKey_parts k hk
  obtain ⟨c, k', rfl⟩ : ∃ c k', k = c :: k' := by
    cases k with
    | nil => exact absurd rfl hkne
    | cons c k' => exact ⟨c, k', rfl⟩
  have hc := safeKeyChar_facts c (hkchars c (List.mem_cons_self c k'))
  have hbul : isBullet ((c :: k') ++ [':']) = false := by
    rw [List.cons_append]
    exact isBullet_cons_false c _ hc.2.2.2
  have hcol : splitAtColon ((c :: k') ++ ':' :: []) = some (c :: k', []) :=
    splitAtColon_append (c :: k') []
      (fun x hx => (safeKeyChar_facts x (hkchars x hx)).2.2.1)
  rw [parseLineStep]
  simp only [hbul, Bool.false_eq_true, if_false, hcol, if_neg hfresh, trimSp,
    List.dropWhile_nil, List.reverse_nil]
  simp

lemma parseLineStep_bullet (acc : FM) (k : Str) (a : List Str) (it : Str)
    (hit : safeItem it = true) :
    parseLineStep (acc ++ [(k, FMVal.arr a)]) (lstr "  - " ++ it)
      = some (acc ++ [(k, FMVal.arr (a ++ [it]))]) := by
  obtain ⟨_, _, hhead, hlast, _⟩ := safeItem_parts it hit
  rw [parseLineStep]
  simp only [isBullet_bullet, if_true, bulletVal, bullet_drop4,
    trimSp_eq_self it hhead hlast, appendToLastArr_append]

/-! ### The fold over all emitted lines -/

lemma foldl_bullets (items : List Str) (rest : List Str) (acc : FM) (k : Str)
    (h : ∀ it ∈ items, safeItem it = true) :
    ∀ a, List.foldl parseLineStepO (some (acc ++ [(k, FMVal.arr a)]))
        ((items.map (fun it => lstr "  - " ++ it)) ++ rest)
      = List.foldl parseLineStepO (some (acc ++ [(k, FMVal.arr (a ++ items))])) rest := by
  induction items with
  | nil => intro a; simp
  | cons it items' ih =>
    intro a
    simp only [List.map_cons, List.cons_append, List.foldl_cons, parseLineStepO]
    rw [parseLineStep_bullet acc k a it (h it (List.mem_cons_self it items'))]
    have := ih (fun x hx => h x (List.mem_cons_of_mem it hx)) (a ++ [it])
    rw [this, List.append_assoc]
    rfl

lemma foldl_linesOf (fm : FM) (h : ∀ e ∈ fm, safeEntry e = true) :
    ∀ acc, (∀ kk ∈ fm.map Prod.fst, kk ∉ acc.map Prod.fst) →
      (fm.map Prod.fst).Nodup →
      List.foldl parseLineStepO (some acc) (linesOf fm) = some (acc ++ fm) := by
  induction fm with
  | nil => intro acc _ _; simp [linesOf]
  | cons e fm' ih =>
    intro acc hdisj hnd
    obtain ⟨k, val⟩ := e
    have he : safeEntry (k, val) = true := h _ (List.mem_cons_self _ fm')
    have hrest : ∀ x ∈ fm', safeEntry x = true :=
      fun x hx => h x (List.mem_cons_of_mem _ hx)
    have hfreshk : k ∉ acc.map Prod.fst :=
      hdisj k (by rw [List.map_cons]; exact List.mem_cons_self _ _)
    have hnd' : (fm'.map Prod.fst).Nodup := by
      simp only [List.map_cons, List.nodup_cons] at hnd
      exact hnd.2
    have hknotin : k ∉ fm'.map Prod.fst := by
      simp only [List.map_cons, List.nodup_cons] at hnd
      exact hnd.1
    have hdisj' : ∀ (w : FMVal), ∀ kk ∈ fm'.map Prod.fst,
        kk ∉ (acc ++ [(k, w)]).map Prod.fst := by
      intro w kk hkk
      rw [List.map_append, List.mem_append]
      rintro (hin | hin)
      · exact hdisj kk (by rw [List.map_cons]; exact List.mem_cons_of_mem _ hkk) hin
      · simp only [List.map_cons, List.map_nil, List.mem_singleton] at hin
        subst hin
        exact hknotin hkk
    have hlines : linesOf ((k, val) :: fm') = entryLines (k, val) ++ linesOf fm' := by
      simp [linesOf]
    rw [hlines]
    cases val with
    | str v =>
      have he' : (safeKey k && safeVal v) = true := he
      rw [Bool.and_eq_true] at he'
      simp only [entryLines, List.cons_append, List.nil_append, List.foldl_cons,
        parseLineStepO]
      rw [parseLineStep_scalar acc k v he'.1 he'.2 hfreshk,
        ih hrest (acc ++ [(k, FMVal.str v)]) (hdisj' (FMVal.str v)) hnd',
        List.append_assoc]
      rfl
    | arr items =>
      have he' : ((safeKey k && !items.isEmpty) && items.all safeItem) = true := he
      rw [Bool.and_eq_true, Bool.and_eq_true] at he'
      have hitems : ∀ it ∈ items, safeItem it = true :=
        fun it hit => List.all_eq_true.mp he'.2 it hit
      simp only [entryLines, List.cons_append, List.foldl_cons, parseLineStepO]
      rw [parseLineStep_opener acc k he'.1.1 hfreshk,
        foldl_bullets items (linesOf fm') acc k hitems [],
        List.nil_append,
        ih hrest (acc ++ [(k, FMVal.arr items)]) (hdisj' (FMVal.arr items)) hnd',
        List.append_assoc]
      rfl
    | nat n => exact absurd he (by simp [safeEntry])
    | bool b => exact absurd he (by simp [safeEntry])
    | null => exact absurd he (by simp [safeEntry])
    | int i => exact absurd he (by simp [safeEntry])
    | float s => exact absurd he (by simp [safeEntry])

lemma closeEntry_safe (e : Str × FMVal) (he : safeEntry e = true) :
    closeEntry e = e := by
  obtain ⟨k, val⟩ := e
  cases val with
  | arr items =>
    have he' : ((safeKey k && !items.isEmpty) && items.all safeItem) = true := he
    rw [Bool.and_eq_true, Bool.and_eq_true] at he'
    have hne : items ≠ [] := by
      have h2 := he'.1.2
      cases items with
      | nil => simp [List.isEmpty] at h2
      | cons a t => exact List.cons_ne_nil a t
    simp [closeEntry, hne]
  | str v => simp [closeEntry]
  | nat n => simp [closeEntry]
  | bool b => simp [closeEntry]
  | null => simp [closeEntry]
  | int i => simp [closeEntry]
  | float s => simp [closeEntry]

lemma map_closeEntry_safe (fm : FM) (h : ∀ e ∈ fm, safeEntry e = true) :
    fm.map closeEntry = fm := by
  have heq : fm.map closeEntry = fm.map id :=
    List.map_congr_left (fun e he => closeEntry_safe e (h e he))
  rw [heq, List.map_id]

/-! ### Relating `serializeToMarkdown` to the line view -/

lemma renderEntry_eq (e : Str × FMVal) :
    renderEntry e = ((entryLines e).map (fun l => l ++ ['\n'])).flatten := by
  obtain ⟨k, val⟩ := e
  cases val with
  | str v => simp [renderEntry, entryLines]
  | nat n => simp [renderEntry, entryLines]
  | bool b => simp [renderEntry, entryLines]
  | null => simp [renderEntry, entryLines]
  | int i => simp [renderEntry, entryLines]
  | float s => simp [renderEntry, entryLines]
  | arr items =>
    simp [renderEntry, entryLines, List.map_map, Function.comp, List.append_assoc]
    exact congrArg List.flatten (List.map_congr_left fun it _ => by
      simp [Function.comp, List.append_assoc])

lemma serial_flatten (fm : FM) :
    (fm.map renderEntry).flatten = ((linesOf fm).map (fun l => l ++ ['\n'])).flatten := by
  induction fm with
  | nil => rfl
  | cons e fm' ih =>
    have hlines : linesOf (e :: fm') = entryLines e ++ linesOf fm' := by
      simp [linesOf]
    rw [List.map_cons, List.flatten_cons, renderEntry_eq e, ih, hlines,
      List.map_append, List.flatten_append]

lemma flatten_nl_joinNl (lines : List Str) (hne : lines ≠ []) :
    ((lines.map (fun l => l ++ ['\n'])).flatten) = joinNl lines ++ ['\n'] := by
  induction lines with
  | nil => exact absurd rfl hne
  | cons l ls ih =>
    cases ls with
    | nil => simp [joinNl]
    | cons l2 ls' =>
      have h1 : ((l :: l2 :: ls').map (fun x => x ++ ['\n'])).flatten
          = (l ++ ['\n']) ++ ((l2 :: ls').map (fun x => x ++ ['\n'])).flatten := by
        rw [List.map_cons, List.flatten_cons]
      rw [h1, ih (by simp)]
      show (l ++ ['\n']) ++ (joinNl (l2 :: ls') ++ ['\n'])
          = (l ++ '\n' :: joinNl (l2 :: ls')) ++ ['\n']
      simp [List.append_assoc]

lemma linesOf_ne_nil (fm : FM) (h : fm ≠ []) : linesOf fm ≠ [] := by
  cases fm with
  | nil => exact absurd rfl h
  | cons e fm' =>
    obtain ⟨k, val⟩ := e
    cases val <;> simp [linesOf, entryLines]

/-! ### Every emitted line is good -/

lemma entryLines_good (e : Str × FMVal) (he : safeEntry e = true) :
    ∀ l ∈ entryLines e, goodLine l := by
  obtain ⟨k, val⟩ := e
  cases val with
  | str v =>
    have hkv : (safeKey k && safeVal v) = true := he
    rw [Bool.and_eq_true] at hkv
    obtain ⟨hkne, hkchars, _⟩ := safeKey_parts k hkv.1
    obtain ⟨_, hvchars, _, _, _⟩ := safeVal_parts v hkv.2
    intro l hl
    simp only [entryLines, List.mem_singleton] at hl
    subst hl
    obtain ⟨c, k', rfl⟩ : ∃ c k', k = c :: k' := by
      cases k with
      | nil => exact absurd rfl hkne
      | cons c k' => exact ⟨c, k', rfl⟩
    have hc := safeKeyChar_facts c (hkchars c (List.mem_cons_self c k'))
    refine ⟨by simp, ?_, ?_⟩
    · intro x hx
      rw [List.append_assoc, List.cons_append, List.mem_cons] at hx
      rcases hx with rfl | hx
      · exact hc.1
      · rw [List.mem_append] at hx
        rcases hx with hx | hx
        · exact (safeKeyChar_facts x (hkchars x (List.mem_cons_of_mem c hx))).1
        · rcases hx with _ | ⟨_, _ | ⟨_, hx⟩⟩
          · decide
          · decide
          · exact safeValChar_ne_nl x (hvchars x hx)
    · rw [List.append_assoc, List.cons_append]
      exact hc.2.1
  | arr items =>
    have he' : ((safeKey k && !items.isEmpty) && items.all safeItem) = true := he
    rw [Bool.and_eq_true, Bool.and_eq_true] at he'
    have hitems : ∀ it ∈ items, safeItem it = true :=
      fun it hit => List.all_eq_true.mp he'.2 it hit
    obtain ⟨hkne, hkchars, _⟩ := safeKey_parts k he'.1.1
    obtain ⟨c, k', rfl⟩ : ∃ c k', k = c :: k' := by
      cases k with
      | nil => exact absurd rfl hkne
      | cons c k' => exact ⟨c, k', rfl⟩
    have hc := safeKeyChar_facts c (hkchars c (List.mem_cons_self c k'))
    intro l hl
    simp only [entryLines, List.mem_cons] at hl
    rcases hl with rfl | hl
    · refine ⟨by simp, ?_, ?_⟩
      · intro x hx
        rw [List.cons_append, List.mem_cons] at hx
        rcases hx with rfl | hx
        · exact hc.1
        · rw [List.mem_append] at hx
          rcases hx with hx | hx
          · exact (safeKeyChar_facts x (hkchars x (List.mem_cons_of_mem c hx))).1
          · rcases hx with _ | ⟨_, hx⟩
            · decide
            · exact absurd hx (List.not_mem_nil x)
      · rw [List.cons_append]
        exact hc.2.1
    · rw [List.mem_map] at hl
      obtain ⟨it, hit, rfl⟩ := hl
      obtain ⟨_, hitchars, _, _, _⟩ := safeItem_parts it (hitems it hit)
      refine ⟨by simp [lstr], ?_, by
        rw [show lstr "  - " ++ it = ' ' :: ' ' :: '-' :: ' ' :: it from rfl,
          List.headD_cons]
        decide⟩
      intro x hx
      rw [show lstr "  - " ++ it = ' ' :: ' ' :: '-' :: ' ' :: it from rfl,
        List.mem_cons, List.mem_cons, List.mem_cons, List.mem_cons] at hx
      rcases hx with rfl | rfl | rfl | rfl | hx
      · decide
      · decide
      · decide
      · decide
      · exact safeValChar_ne_nl x (hitchars x hx)
  | nat n => exact absurd he (by simp [safeEntry])
  | bool b => exact absurd he (by simp [safeEntry])
  | null => exact absurd he (by simp [safeEntry])
  | int i => exact absurd he (by simp [safeEntry])
  | float s => exact absurd he (by simp [safeEntry])

lemma linesOf_good (fm : FM) (h : ∀ e ∈ fm, safeEntry e = true) :
    ∀ l ∈ linesOf fm, goodLine l := by
  intro l hl
  rw [linesOf, List.mem_flatten] at hl
  obtain ⟨ls, hls, hmem⟩ := hl
  rw [List.mem_map] at hls
  obtain ⟨e, he, rfl⟩ := hls
  exact entryLines_good e (h e he) l hmem

/-- C9, counterexample: the claimed round trip fails at the front matter
`{title: "true"}`, whose value has no special characters.
`serializeToMarkdown` emits the line `title: true`, and js-yaml's implicit
typing loads that scalar back as the boolean `true`, so the decoded title
is not the original string: `decode(encode(fm, body)).title ≠ fm.title`. -/
theorem c9_title_not_preserved_counterexample :
    parseFrontMatter (serializeToMarkdown exFM9c exBody9c)
      = some [(lstr "title", FMVal.bool true)]
    ∧ Option.bind (parseFrontMatter (serializeToMarkdown exFM9c exBody9c))
        (fun pf => List.lookup (lstr "title") pf)
      ≠ List.lookup (lstr "title") exFM9c := by
  constructor
  · decide
  · decide

/-- C9, amended: the round trip does hold whenever js-yaml's implicit
typing is inert on the document — the front matter is flat and nonempty,
keys repeat nowhere and contain no special characters, and every string
value and array item keeps to the no-special-character alphabet while not
spelling a yaml-typed token (true/false/null words, integer or float
shaped scalars); arrays are nonempty (a bare `key:` loads as null).  Then
parsing the serialized note recovers the front matter exactly — in
particular the title. -/
theorem c9_front_matter_roundtrip_title :
    ∀ (fm : FM) (body : Str), SafeFM fm →
      parseFrontMatter (serializeToMarkdown fm body) = some fm
      ∧ Option.bind (parseFrontMatter (serializeToMarkdown fm body))
          (fun pf => List.lookup (lstr "title") pf)
        = List.lookup (lstr "title") fm := by
  intro fm body hsafe
  obtain ⟨hne, hsafe0, hnodup⟩ := hsafe
  have hsafe' : ∀ e ∈ fm, safeEntry e = true :=
    fun e he => List.all_eq_true.mp hsafe0 e he
  have hLne : linesOf fm ≠ [] := linesOf_ne_nil fm hne
  have hgood : ∀ l ∈ linesOf fm, goodLine l := linesOf_good fm hsafe'
  have hser : serializeToMarkdown fm body
      = '-' :: '-' :: '-' :: '\n' ::
        (joinNl (linesOf fm) ++ '\n' :: '-' :: '-' :: '-' :: ('\n' :: '\n' :: body)) := by
    rw [serializeToMarkdown, serial_flatten fm, flatten_nl_joinNl (linesOf fm) hLne]
    simp [lstr, List.append_assoc]
  have hmain : parseFrontMatter (serializeToMarkdown fm body) = some fm := by
    rw [hser, parseFrontMatter,
      splitAtClose_append (joinNl (linesOf fm)) ('\n' :: '\n' :: body)
        (hasClose_joinNl (linesOf fm) hgood)]
    show yamlLoadFlat (splitOnChar '\n' (joinNl (linesOf fm))) = some fm
    rw [splitOnChar_joinNl (linesOf fm) hLne (fun l hl => (hgood l hl).2.1),
      yamlLoadFlat,
      foldl_linesOf fm hsafe' [] (fun kk _ => List.not_mem_nil kk) hnodup]
    simp only [Option.map_some', List.nil_append]
    rw [map_closeEntry_safe fm hsafe']
  exact ⟨hmain, by rw [hmain]; rfl⟩

/-- Witness for the amended C9 at a concrete three-entry front matter
(string title, string remote id, two-item tag array) and a concrete
body. -/
theorem c9_front_matter_roundtrip_title_witness :
    SafeFM exFM9
    ∧ (parseFrontMatter (serializeToMarkdown exFM9 exBody9) = some exFM9
       ∧ Option.bind (parseFrontMatter (serializeToMarkdown exFM9 exBody9))
           (fun pf => List.lookup (lstr "title") pf)
         = List.lookup (lstr "title") exFM9) :=
  ⟨⟨by decide, by decide, by decide⟩,
    c9_front_matter_roundtrip_title exFM9 exBody9 ⟨by decide, by decide, by decide⟩⟩

end NotesSync
